import Mathlib

/-!
Verification of the Resource Admission Control & Content-Image Embedding
Pipeline of the vipplay-ai-content-generator repository.

Part 1 models `services/resource_lock.py` (`ResourceLockManager`) as a small-step
transition system over the asyncio primitives it uses:

* `_article_semaphore  : asyncio.Semaphore(MAX_CONCURRENT_ARTICLES)` — `semAvail`
* `_article_generating : asyncio.Event` (initially set)               — `eventSet`
* `_active_articles    : int` guarded by `_active_articles_lock`      — `active`, `countLock`
* `_image_lock         : asyncio.Lock`                                — `imageLock`
* `_waiting_images     : int`                                         — `waitingImages`

Tasks are cooperative asyncio coroutines: code between two `await` suspension
points runs atomically.  An `asyncio.Event` waiter whose future has been
resolved by `set()` still resumes successfully even if `clear()` ran before the
waiter was rescheduled; the per-waiter flag `woken` in `SPC.waiting` models the
resolved future.
-/

namespace RL

/-- Program counter of a primary (article-generation) task.  Each constructor
names the next atomic action the task will perform. -/
inductive PPC where
  | acqSem   -- about to `await self._article_semaphore.acquire()`
  | acqLockI -- about to `async with self._active_articles_lock` (increment side)
  | doInc    -- holding the counter lock: `_active_articles += 1`, maybe `clear()`, release lock
  | body     -- running the `yield`ed body (normal or exceptional exit both reach `finally`)
  | acqLockD -- about to take the counter lock in the `finally` block
  | doDec    -- holding the counter lock: `_active_articles -= 1`, maybe `set()`, release lock
  | relSem   -- about to `self._article_semaphore.release()`
  | done
deriving DecidableEq, Repr

/-- Program counter of a secondary (image-generation) task. -/
inductive SPC where
  | enter               -- about to run `_waiting_images += 1` and `await event.wait()`
  | waiting (woken : Bool) -- suspended in `event.wait()`; `woken` = its future is resolved
  | acqImg              -- about to `await self._image_lock.acquire()`
  | startBody           -- holding the image lock: `_waiting_images -= 1`, then body
  | body                -- running the `yield`ed body
  | done
deriving DecidableEq, Repr

inductive TaskPC where
  | prim (p : PPC)
  | sec (s : SPC)
deriving DecidableEq, Repr

inductive TaskKind where
  | primary
  | secondary
deriving DecidableEq, Repr

/-- Shared state of the `ResourceLockManager` singleton plus every task's pc. -/
structure LockState where
  semAvail      : Nat
  eventSet      : Bool
  active        : Int
  countLock     : Bool
  imageLock     : Bool
  waitingImages : Int
  tasks         : List TaskPC
deriving DecidableEq, Repr

/-- State right after `ResourceLockManager.__init__` with the given tasks
about to call `article_generation` / `image_generation`. -/
def initState (K : Nat) (kinds : List TaskKind) : LockState where
  semAvail := K
  eventSet := true    -- `self._article_generating.set()` in __init__
  active := 0
  countLock := false
  imageLock := false
  waitingImages := 0
  tasks := kinds.map fun k =>
    match k with
    | .primary => .prim .acqSem
    | .secondary => .sec .enter

/-- `Event.set()` resolves the futures of all currently waiting tasks. -/
def wakeTask : TaskPC → TaskPC
  | .sec (.waiting _) => .sec (.waiting true)
  | t => t

/-- One atomic step of task `i` (the code between two suspension points),
`none` when task `i` is blocked or finished. -/
def step (s : LockState) (i : Nat) : Option LockState :=
  match s.tasks[i]? with
  | none => none
  | some pc =>
    match pc with
    | .prim .acqSem =>
      if 0 < s.semAvail then
        some { s with semAvail := s.semAvail - 1, tasks := s.tasks.set i (.prim .acqLockI) }
      else none
    | .prim .acqLockI =>
      if s.countLock then none
      else some { s with countLock := true, tasks := s.tasks.set i (.prim .doInc) }
    | .prim .doInc =>
      some { s with
        active := s.active + 1
        eventSet := if s.active + 1 = 1 then false else s.eventSet
        countLock := false
        tasks := s.tasks.set i (.prim .body) }
    | .prim .body =>
      some { s with tasks := s.tasks.set i (.prim .acqLockD) }
    | .prim .acqLockD =>
      if s.countLock then none
      else some { s with countLock := true, tasks := s.tasks.set i (.prim .doDec) }
    | .prim .doDec =>
      if s.active - 1 = 0 then
        some { s with
          active := s.active - 1
          eventSet := true
          countLock := false
          tasks := (s.tasks.set i (.prim .relSem)).map wakeTask }
      else
        some { s with
          active := s.active - 1
          countLock := false
          tasks := s.tasks.set i (.prim .relSem) }
    | .prim .relSem =>
      some { s with semAvail := s.semAvail + 1, tasks := s.tasks.set i (.prim .done) }
    | .prim .done => none
    | .sec .enter =>
      some { s with
        waitingImages := s.waitingImages + 1
        tasks := s.tasks.set i (.sec (if s.eventSet then .acqImg else .waiting false)) }
    | .sec (.waiting w) =>
      if w then some { s with tasks := s.tasks.set i (.sec .acqImg) } else none
    | .sec .acqImg =>
      if s.imageLock then none
      else some { s with imageLock := true, tasks := s.tasks.set i (.sec .startBody) }
    | .sec .startBody =>
      some { s with waitingImages := s.waitingImages - 1, tasks := s.tasks.set i (.sec .body) }
    | .sec .body =>
      some { s with imageLock := false, tasks := s.tasks.set i (.sec .done) }
    | .sec .done => none

/-- Reachability from the initial state under an arbitrary interleaving. -/
inductive Reach (K : Nat) (kinds : List TaskKind) : LockState → Prop where
  | init : Reach K kinds (initState K kinds)
  | next {s s' : LockState} {i : Nat} : Reach K kinds s → step s i = some s' →
      Reach K kinds s'

/-- Run a schedule (list of task indices), failing if any step is blocked. -/
def run (s : LockState) : List Nat → Option LockState
  | [] => some s
  | i :: rest =>
    match step s i with
    | none => none
    | some s' => run s' rest

theorem run_reach {K : Nat} {kinds : List TaskKind} :
    ∀ {l : List Nat} {s s' : LockState}, Reach K kinds s → run s l = some s' →
      Reach K kinds s' := by
  intro l
  induction l with
  | nil => intro s s' hr h; simp [run] at h; exact h ▸ hr
  | cons i rest ih =>
    intro s s' hr h
    simp only [run] at h
    cases hstep : step s i with
    | none => rw [hstep] at h; exact absurd h (by simp)
    | some s1 => rw [hstep] at h; exact ih (Reach.next hr hstep) h

/-- A secondary task is inside its critical section (it holds the image lock,
its body runs between `startBody` and the release). -/
def secInCrit (s : LockState) : Bool :=
  s.tasks.any fun t =>
    match t with
    | .sec .startBody => true
    | .sec .body => true
    | _ => false

/-- Tasks of the racing scenario: two primaries and one secondary. -/
def raceKinds : List TaskKind := [.primary, .primary, .secondary]

/-- Schedule exhibiting the false wake-up: primary 0 runs and clears the
barrier; the secondary 2 starts waiting; primary 0 finishes (event set, the
waiter's future resolves); primary 1 starts and clears the event again; the
already-woken secondary then resumes, acquires the free image lock and enters
its body while primary 1 is still active. -/
def raceSchedule : List Nat := [0, 0, 0, 2, 0, 0, 0, 0, 1, 1, 1, 2, 2]

/-- The state reached by `raceSchedule`: primary 1 is mid-body
(`active = 1`) while the secondary holds the image lock and is in its
critical section. -/
def raceBadState : LockState where
  semAvail := 1
  eventSet := false
  active := 1
  countLock := false
  imageLock := true
  waitingImages := 1
  tasks := [.prim .done, .prim .body, .sec .startBody]

/-- C1: the claim fails on the code.  With capacity `MAX_CONCURRENT_ARTICLES = 2`
and tasks `[primary, primary, secondary]`, the interleaving `raceSchedule` is a
reachable execution of `ResourceLockManager` in which the secondary task's body
has begun (it sits in its critical section holding `_image_lock`) while the
active-primary count is `1 > 0`: the `await self._article_generating.wait()` in
`image_generation` resolved when the first primary finished, and the second
primary's `clear()` does not re-suspend the already-woken waiter. -/
theorem c1_secondary_runs_while_primary_active :
    ∃ s : LockState, Reach 2 raceKinds s ∧ secInCrit s = true ∧ 0 < s.active := by
  refine ⟨raceBadState, ?_, by decide, by decide⟩
  have h : run (initState 2 raceKinds) raceSchedule = some raceBadState := by decide
  exact run_reach Reach.init h

/-- Primary pcs that hold a semaphore permit (between `acquire` and `release`). -/
def holdsSem : TaskPC → Bool
  | .prim .acqLockI => true
  | .prim .doInc => true
  | .prim .body => true
  | .prim .acqLockD => true
  | .prim .doDec => true
  | .prim .relSem => true
  | _ => false

/-- Primary pcs between the `+= 1` and the `-= 1` of `_active_articles`. -/
def counted : TaskPC → Bool
  | .prim .body => true
  | .prim .acqLockD => true
  | .prim .doDec => true
  | _ => false

/-- Primary pcs holding `_active_articles_lock`. -/
def lockHolder : TaskPC → Bool
  | .prim .doInc => true
  | .prim .doDec => true
  | _ => false

theorem countP_set_aux (p : TaskPC → Bool) :
    ∀ (l : List TaskPC) (i : Nat) (a b : TaskPC), l[i]? = some a →
      (l.set i b).countP p + (if p a then 1 else 0)
        = l.countP p + (if p b then 1 else 0) := by
  intro l
  induction l with
  | nil => intro i a b h; simp at h
  | cons x xs ih =>
    intro i a b h
    cases i with
    | zero =>
      simp only [List.getElem?_cons_zero] at h
      injection h with h; subst h
      simp [List.countP_cons]
      omega
    | succ j =>
      simp only [List.getElem?_cons_succ] at h
      have := ih j a b h
      simp [List.countP_cons]
      omega

theorem countP_map_invariant (f : TaskPC → TaskPC) (p : TaskPC → Bool)
    (hf : ∀ t, p (f t) = p t) : ∀ l : List TaskPC, (l.map f).countP p = l.countP p := by
  intro l
  induction l with
  | nil => rfl
  | cons x xs ih => simp [List.countP_cons, hf, ih]

theorem countP_pos_of_get (p : TaskPC → Bool) (l : List TaskPC) (i : Nat) (a : TaskPC)
    (h : l[i]? = some a) (hp : p a = true) : 0 < l.countP p := by
  have hmem : a ∈ l := List.getElem?_mem h
  exact List.countP_pos_iff.mpr ⟨a, hmem, hp⟩

/-- Inductive invariant of the lock manager: the active-article counter counts
exactly the primaries between their increment and decrement; permits are
conserved; the counter mutex has at most one holder and `countLock` reflects it. -/
def Inv (K : Nat) (s : LockState) : Prop :=
  s.active = (s.tasks.countP counted : Int) ∧
  s.tasks.countP holdsSem + s.semAvail = K ∧
  s.tasks.countP lockHolder ≤ 1 ∧
  (s.countLock = true ↔ s.tasks.countP lockHolder = 1)

theorem inv_init (K : Nat) (kinds : List TaskKind) : Inv K (initState K kinds) := by
  have hzero : ∀ p : TaskPC → Bool,
      (∀ k : TaskKind, p (match k with
        | .primary => TaskPC.prim .acqSem
        | .secondary => TaskPC.sec .enter) = false) →
      (kinds.map fun k => match k with
        | TaskKind.primary => TaskPC.prim .acqSem
        | TaskKind.secondary => TaskPC.sec .enter).countP p = 0 := by
    intro p hp
    rw [List.countP_eq_zero]
    intro a ha
    rcases List.mem_map.mp ha with ⟨k, _, hk⟩
    subst hk
    simp [hp k]
  refine ⟨?_, ?_, ?_, ?_⟩ <;>
    simp [initState, hzero counted (by intro k; cases k <;> rfl),
      hzero holdsSem (by intro k; cases k <;> rfl),
      hzero lockHolder (by intro k; cases k <;> rfl)]


theorem counted_sec (x : SPC) : counted (.sec x) = false := by cases x <;> rfl

theorem holdsSem_sec (x : SPC) : holdsSem (.sec x) = false := by cases x <;> rfl

theorem lockHolder_sec (x : SPC) : lockHolder (.sec x) = false := by cases x <;> rfl

theorem inv_step {K : Nat} {s s' : LockState} {i : Nat}
    (hs : Inv K s) (h : step s i = some s') : Inv K s' := by
  obtain ⟨hact, hsem, hlockle, hlock⟩ := hs
  cases hget : s.tasks[i]? with
  | none => simp [step, hget] at h
  | some pc =>
    have hset := fun (p : TaskPC → Bool) (b : TaskPC) => countP_set_aux p s.tasks i pc b hget
    cases pc with
    | sec spc =>
      cases spc with
      | enter =>
        simp only [step, hget] at h
        injection h with h; subst h
        have c1 := hset counted (.sec (if s.eventSet = true then .acqImg else .waiting false))
        have c2 := hset holdsSem (.sec (if s.eventSet = true then .acqImg else .waiting false))
        have c3 := hset lockHolder (.sec (if s.eventSet = true then .acqImg else .waiting false))
        simp [counted_sec, holdsSem_sec, lockHolder_sec] at c1 c2 c3
        refine ⟨?_, ?_, ?_, ?_⟩ <;> dsimp only
        · omega
        · omega
        · omega
        · rw [c3]; exact hlock
      | waiting w =>
        cases w with
        | false => simp [step, hget] at h
        | true =>
          simp only [step, hget] at h
          injection h with h; subst h
          have c1 := hset counted (.sec .acqImg)
          have c2 := hset holdsSem (.sec .acqImg)
          have c3 := hset lockHolder (.sec .acqImg)
          simp [counted_sec, holdsSem_sec, lockHolder_sec] at c1 c2 c3
          refine ⟨?_, ?_, ?_, ?_⟩ <;> dsimp only
          · omega
          · omega
          · omega
          · rw [c3]; exact hlock
      | acqImg =>
        simp only [step, hget] at h
        split at h
        · exact absurd h (by simp)
        · injection h with h; subst h
          have c1 := hset counted (.sec .startBody)
          have c2 := hset holdsSem (.sec .startBody)
          have c3 := hset lockHolder (.sec .startBody)
          simp [counted_sec, holdsSem_sec, lockHolder_sec] at c1 c2 c3
          refine ⟨?_, ?_, ?_, ?_⟩ <;> dsimp only
          · omega
          · omega
          · omega
          · rw [c3]; exact hlock
      | startBody =>
        simp only [step, hget] at h
        injection h with h; subst h
        have c1 := hset counted (.sec .body)
        have c2 := hset holdsSem (.sec .body)
        have c3 := hset lockHolder (.sec .body)
        simp [counted_sec, holdsSem_sec, lockHolder_sec] at c1 c2 c3
        refine ⟨?_, ?_, ?_, ?_⟩ <;> dsimp only
        · omega
        · omega
        · omega
        · rw [c3]; exact hlock
      | body =>
        simp only [step, hget] at h
        injection h with h; subst h
        have c1 := hset counted (.sec .done)
        have c2 := hset holdsSem (.sec .done)
        have c3 := hset lockHolder (.sec .done)
        simp [counted_sec, holdsSem_sec, lockHolder_sec] at c1 c2 c3
        refine ⟨?_, ?_, ?_, ?_⟩ <;> dsimp only
        · omega
        · omega
        · omega
        · rw [c3]; exact hlock
      | done => simp [step, hget] at h
    | prim ppc =>
      cases ppc with
      | acqSem =>
        simp only [step, hget] at h
        split at h
        case isFalse => exact absurd h (by simp)
        case isTrue hpos =>
          injection h with h; subst h
          have c1 := hset counted (.prim .acqLockI)
          have c2 := hset holdsSem (.prim .acqLockI)
          have c3 := hset lockHolder (.prim .acqLockI)
          simp [counted, holdsSem, lockHolder] at c1 c2 c3
          refine ⟨?_, ?_, ?_, ?_⟩ <;> dsimp only
          · omega
          · omega
          · omega
          · rw [c3]; exact hlock
      | acqLockI =>
        simp only [step, hget] at h
        split at h
        case isTrue => exact absurd h (by simp)
        case isFalse hcl =>
          injection h with h; subst h
          have hz : s.tasks.countP lockHolder = 0 := by
            rcases Nat.lt_or_ge (s.tasks.countP lockHolder) 1 with hlt | hge
            · omega
            · exact absurd (hlock.mpr (by omega)) hcl
          have c1 := hset counted (.prim .doInc)
          have c2 := hset holdsSem (.prim .doInc)
          have c3 := hset lockHolder (.prim .doInc)
          simp [counted, holdsSem, lockHolder] at c1 c2 c3
          refine ⟨?_, ?_, ?_, ?_⟩ <;> dsimp only
          · omega
          · omega
          · omega
          · have e3 : (s.tasks.set i (.prim .doInc)).countP lockHolder = 1 := by omega
            simp [e3]
      | doInc =>
        simp only [step, hget] at h
        injection h with h; subst h
        have hone : s.tasks.countP lockHolder = 1 := by
          have := countP_pos_of_get lockHolder s.tasks i _ hget (by rfl)
          omega
        have c1 := hset counted (.prim .body)
        have c2 := hset holdsSem (.prim .body)
        have c3 := hset lockHolder (.prim .body)
        simp [counted, holdsSem, lockHolder] at c1 c2 c3
        refine ⟨?_, ?_, ?_, ?_⟩ <;> dsimp only
        · omega
        · omega
        · omega
        · have e3 : (s.tasks.set i (.prim .body)).countP lockHolder = 0 := by omega
          simp [e3]
      | body =>
        simp only [step, hget] at h
        injection h with h; subst h
        have c1 := hset counted (.prim .acqLockD)
        have c2 := hset holdsSem (.prim .acqLockD)
        have c3 := hset lockHolder (.prim .acqLockD)
        simp [counted, holdsSem, lockHolder] at c1 c2 c3
        refine ⟨?_, ?_, ?_, ?_⟩ <;> dsimp only
        · omega
        · omega
        · omega
        · have e3 : (s.tasks.set i (.prim .acqLockD)).countP lockHolder
              = s.tasks.countP lockHolder := by omega
          rw [e3]; exact hlock
      | acqLockD =>
        simp only [step, hget] at h
        split at h
        case isTrue => exact absurd h (by simp)
        case isFalse hcl =>
          injection h with h; subst h
          have hz : s.tasks.countP lockHolder = 0 := by
            rcases Nat.lt_or_ge (s.tasks.countP lockHolder) 1 with hlt | hge
            · omega
            · exact absurd (hlock.mpr (by omega)) hcl
          have c1 := hset counted (.prim .doDec)
          have c2 := hset holdsSem (.prim .doDec)
          have c3 := hset lockHolder (.prim .doDec)
          simp [counted, holdsSem, lockHolder] at c1 c2 c3
          refine ⟨?_, ?_, ?_, ?_⟩ <;> dsimp only
          · omega
          · omega
          · omega
          · have e3 : (s.tasks.set i (.prim .doDec)).countP lockHolder = 1 := by omega
            simp [e3]
      | doDec =>
        simp only [step, hget] at h
        have hone : s.tasks.countP lockHolder = 1 := by
          have := countP_pos_of_get lockHolder s.tasks i _ hget (by rfl)
          omega
        have c1 := hset counted (.prim .relSem)
        have c2 := hset holdsSem (.prim .relSem)
        have c3 := hset lockHolder (.prim .relSem)
        simp [counted, holdsSem, lockHolder] at c1 c2 c3
        have hw1 := countP_map_invariant wakeTask counted
          (by intro t; cases t with
            | prim p => rfl
            | sec q => cases q <;> rfl)
        have hw2 := countP_map_invariant wakeTask holdsSem
          (by intro t; cases t with
            | prim p => rfl
            | sec q => cases q <;> rfl)
        have hw3 := countP_map_invariant wakeTask lockHolder
          (by intro t; cases t with
            | prim p => rfl
            | sec q => cases q <;> rfl)
        split at h
        · injection h with h; subst h
          refine ⟨?_, ?_, ?_, ?_⟩ <;> dsimp only
          · rw [hw1]; omega
          · rw [hw2]; omega
          · rw [hw3]; omega
          · rw [hw3]
            have e3 : (s.tasks.set i (.prim .relSem)).countP lockHolder = 0 := by omega
            simp [e3]
        · injection h with h; subst h
          refine ⟨?_, ?_, ?_, ?_⟩ <;> dsimp only
          · omega
          · omega
          · omega
          · have e3 : (s.tasks.set i (.prim .relSem)).countP lockHolder = 0 := by omega
            simp [e3]
      | relSem =>
        simp only [step, hget] at h
        injection h with h; subst h
        have c1 := hset counted (.prim .done)
        have c2 := hset holdsSem (.prim .done)
        have c3 := hset lockHolder (.prim .done)
        simp [counted, holdsSem, lockHolder] at c1 c2 c3
        refine ⟨?_, ?_, ?_, ?_⟩ <;> dsimp only
        · omega
        · omega
        · omega
        · have e3 : (s.tasks.set i (.prim .done)).countP lockHolder
              = s.tasks.countP lockHolder := by omega
          rw [e3]; exact hlock
      | done => simp [step, hget] at h

theorem inv_reach {K : Nat} {kinds : List TaskKind} {s : LockState}
    (h : Reach K kinds s) : Inv K s := by
  induction h with
  | init => exact inv_init K kinds
  | next _ hstep ih => exact inv_step ih hstep

theorem counted_imp_holdsSem (a : TaskPC) : counted a = true → holdsSem a = true := by
  cases a with
  | prim p => cases p <;> simp [counted, holdsSem]
  | sec q => simp [counted_sec, holdsSem_sec]

/-- C7: at every reachable state of the `ResourceLockManager` model the
active-article counter satisfies `0 ≤ active ≤ MAX_CONCURRENT_ARTICLES`
(= the semaphore capacity `K`), and any step that changes the counter is an
increment inside `article_generation`'s acquire path or the decrement inside
its `finally` block, performed while `_active_articles_lock` is held.  The
decrement is reached from the body on both the normal and the exceptional exit
(the model's `body → acqLockD` transition covers both, mirroring `finally`). -/
theorem c7_active_articles_invariant :
    ∀ (K : Nat) (kinds : List TaskKind) (s : LockState), Reach K kinds s →
      (0 ≤ s.active ∧ s.active ≤ (K : Int)) ∧
      (∀ (i : Nat) (s' : LockState), step s i = some s' → s'.active ≠ s.active →
        s.countLock = true ∧
        (s.tasks[i]? = some (.prim .doInc) ∨ s.tasks[i]? = some (.prim .doDec))) := by
  intro K kinds s hr
  obtain ⟨hact, hsem, hlockle, hlock⟩ := inv_reach hr
  have hmono : s.tasks.countP counted ≤ s.tasks.countP holdsSem :=
    List.countP_mono_left fun a _ hpa => counted_imp_holdsSem a hpa
  refine ⟨⟨by omega, by omega⟩, ?_⟩
  intro i s' hstep hne
  cases hget : s.tasks[i]? with
  | none => simp [step, hget] at hstep
  | some pc =>
    have hcl : pc = .prim .doInc ∨ pc = .prim .doDec → s.countLock = true := by
      intro hpc
      refine hlock.mpr ?_
      have hpos : 0 < s.tasks.countP lockHolder := by
        rcases hpc with hpc | hpc <;> subst hpc <;>
          exact countP_pos_of_get lockHolder s.tasks i _ hget (by rfl)
      omega
    cases pc with
    | sec spc =>
      exfalso
      cases spc with
      | enter =>
        simp only [step, hget] at hstep
        injection hstep with hstep
        subst hstep
        exact hne rfl
      | waiting w =>
        cases w with
        | false => simp [step, hget] at hstep
        | true =>
          simp only [step, hget] at hstep
          injection hstep with hstep
          subst hstep
          exact hne rfl
      | acqImg =>
        simp only [step, hget] at hstep
        split at hstep
        · exact absurd hstep (by simp)
        · injection hstep with hstep; subst hstep; exact hne rfl
      | startBody =>
        simp only [step, hget] at hstep
        injection hstep with hstep; subst hstep; exact hne rfl
      | body =>
        simp only [step, hget] at hstep
        injection hstep with hstep; subst hstep; exact hne rfl
      | done => simp [step, hget] at hstep
    | prim ppc =>
      cases ppc with
      | acqSem =>
        exfalso
        simp only [step, hget] at hstep
        split at hstep
        · injection hstep with hstep; subst hstep; exact hne rfl
        · exact absurd hstep (by simp)
      | acqLockI =>
        exfalso
        simp only [step, hget] at hstep
        split at hstep
        · exact absurd hstep (by simp)
        · injection hstep with hstep; subst hstep; exact hne rfl
      | doInc => exact ⟨hcl (Or.inl rfl), Or.inl rfl⟩
      | body =>
        exfalso
        simp only [step, hget] at hstep
        injection hstep with hstep; subst hstep; exact hne rfl
      | acqLockD =>
        exfalso
        simp only [step, hget] at hstep
        split at hstep
        · exact absurd hstep (by simp)
        · injection hstep with hstep; subst hstep; exact hne rfl
      | doDec => exact ⟨hcl (Or.inr rfl), Or.inr rfl⟩
      | relSem =>
        exfalso
        simp only [step, hget] at hstep
        injection hstep with hstep; subst hstep; exact hne rfl
      | done => simp [step, hget] at hstep

/-- Witness for C7 at the concrete reachable state `raceBadState` with
capacity 2 and tasks `[primary, primary, secondary]`. -/
theorem c7_witness :
    (0 ≤ raceBadState.active ∧ raceBadState.active ≤ (2 : Int)) ∧
    (∀ (i : Nat) (s' : LockState), step raceBadState i = some s' →
      s'.active ≠ raceBadState.active →
      raceBadState.countLock = true ∧
      (raceBadState.tasks[i]? = some (.prim .doInc) ∨
        raceBadState.tasks[i]? = some (.prim .doDec))) := by
  have h : run (initState 2 raceKinds) raceSchedule = some raceBadState := by decide
  exact c7_active_articles_invariant 2 raceKinds raceBadState (run_reach Reach.init h)

end RL

/-!
Part 2 models `services/image_generation_service.py`.  Text is a list of
characters (`Str`), mirroring Python `str` semantics character by character;
the regular expressions of the source are hand-compiled to deterministic
scanners with the same backtracking behaviour.  The external collaborators
(Ollama, the HuggingFace image API, S3, the NSFW safety service) appear as
oracle functions supplied to the pipeline; each outward call is recorded as an
`Event` so call-ordering properties can be stated.
-/

namespace IG

abbrev Str := List Char

/-- Python `str.strip()` whitespace set (ASCII part used by the service). -/
def isPyWs (c : Char) : Bool :=
  c = ' ' || c = '\t' || c = '\n' || c = '\r' || c = '\x0b' || c = '\x0c'

/-- Python `s.strip()`. -/
def pyStrip (l : Str) : Str :=
  ((l.dropWhile isPyWs).reverse.dropWhile isPyWs).reverse

/-- Python `s.strip(chars)`. -/
def pyStripChars (cs : Str) (l : Str) : Str :=
  ((l.dropWhile cs.contains).reverse.dropWhile cs.contains).reverse

/-- The quote characters of `line.strip('"\'`')` (backquote included). -/
def quoteChars : Str := ['\"', '\'', Char.ofNat 96]

/-- Python `s.split('\n')`. -/
def splitNl : Str → List Str
  | [] => [[]]
  | c :: rest =>
    match splitNl rest with
    | [] => [[]]
    | h :: t => if c = '\n' then [] :: h :: t else (c :: h) :: t

/-- Python `sep.join(pieces)`. -/
def joinWith (sep : Str) : List Str → Str
  | [] => []
  | [x] => x
  | x :: xs => x ++ sep ++ joinWith sep xs

/-- `re.sub(r'^\d+[\.\)]\s*', '', line)`: strip a numbering prefix. -/
def subNum (l : Str) : Str :=
  let ds := l.takeWhile Char.isDigit
  match l.drop ds.length with
  | c :: rest =>
    if ds ≠ [] && (c = '.' || c = ')') then rest.dropWhile isPyWs else l
  | [] => l

/-- `re.sub(r'^[-*•]\s+', '', line)`: strip a bullet prefix. -/
def subBullet (l : Str) : Str :=
  match l with
  | b :: c :: rest =>
    if (b = '-' || b = '*' || b = '•') && isPyWs c then
      (c :: rest).dropWhile isPyWs
    else l
  | _ => l

/-- Case-insensitive literal match; returns the remainder on success. -/
def matchCaseless : Str → Str → Option Str
  | [], l => some l
  | _ :: _, [] => none
  | p :: ps, c :: cs => if c.toLower = p.toLower then matchCaseless ps cs else none

/-- `re.sub(r'^Prompt\s*\d*[:\-]\s*', '', line, flags=re.IGNORECASE)`. -/
def subLabel (l : Str) : Str :=
  match matchCaseless ("prompt".data) l with
  | none => l
  | some r1 =>
    let r2 := r1.dropWhile isPyWs
    let r3 := r2.dropWhile Char.isDigit
    match r3 with
    | c :: rest => if c = ':' || c = '-' then rest.dropWhile isPyWs else l
    | [] => l

/-- Pass-1 cleaning of one line (strip, numbering, bullet, label, quotes). -/
def cleanLine1 (l : Str) : Str :=
  pyStrip (pyStripChars quoteChars (subLabel (subBullet (subNum (pyStrip l)))))

/-- Pass-2 cleaning of one blank-line segment: same as pass 1 except that the
`Prompt n:` label prefix is not stripped (the source omits that `re.sub`). -/
def cleanSegment2 (l : Str) : Str :=
  pyStrip (pyStripChars quoteChars (subBullet (subNum (pyStrip l))))

/-- Pass-3 cleaning of one sentence (strip, numbering, quotes). -/
def cleanSentence3 (l : Str) : Str :=
  pyStrip (pyStripChars quoteChars (subNum (pyStrip l)))

/-- `re.split(r'\n\s*\n+', text)`: split on blank-line boundaries.  A match is
a newline followed by the longest whitespace run that still ends in a newline
(`\s*` backtracks so that the final `\n+` is nonempty). -/
def splitBlankAux : Nat → Str → Str → List Str
  | 0, _, cur => [cur.reverse]
  | _ + 1, [], cur => [cur.reverse]
  | f + 1, c :: rest, cur =>
    if c = '\n' then
      let ws := rest.takeWhile isPyWs
      if ws.contains '\n' then
        let idxLast := ws.length - 1 - (ws.reverse.findIdx fun x => x = '\n')
        cur.reverse :: splitBlankAux f (rest.drop (idxLast + 1)) []
      else splitBlankAux f rest (c :: cur)
    else splitBlankAux f rest (c :: cur)

def splitBlank (l : Str) : List Str := splitBlankAux l.length l []

/-- `re.sub(r'```[^`]*```', '', text, flags=re.DOTALL)`: drop fenced blocks. -/
def backQ : Char := Char.ofNat 96

def stripFencesAux : Nat → Str → Str
  | 0, l => l
  | _ + 1, [] => []
  | f + 1, c :: rest =>
    if c = backQ then
      match rest with
      | c2 :: c3 :: r3 =>
        if c2 = backQ && c3 = backQ then
          let body := r3.takeWhile (fun x => x ≠ backQ)
          match r3.drop body.length with
          | d1 :: d2 :: d3 :: r4 =>
            if d1 = backQ && d2 = backQ && d3 = backQ then stripFencesAux f r4
            else c :: stripFencesAux f rest
          | _ => c :: stripFencesAux f rest
        else c :: stripFencesAux f rest
      | _ => c :: stripFencesAux f rest
    else c :: stripFencesAux f rest

def stripFences (l : Str) : Str := stripFencesAux l.length l

/-- `re.split(r'[.!?]\s+', text)`: split on sentence terminators. -/
def splitSentAux : Nat → Str → Str → List Str
  | 0, _, cur => [cur.reverse]
  | _ + 1, [], cur => [cur.reverse]
  | f + 1, c :: rest, cur =>
    if c = '.' || c = '!' || c = '?' then
      let ws := rest.takeWhile isPyWs
      if ws ≠ [] then
        cur.reverse :: splitSentAux f (rest.drop ws.length) []
      else splitSentAux f rest (c :: cur)
    else splitSentAux f rest (c :: cur)

def splitSent (l : Str) : List Str := splitSentAux l.length l []

/-- Scanner for the `\(.*?\)` tail of the image regex: find the first `)`
before any newline. -/
def findParen : Str → Option Str
  | [] => none
  | c :: rest =>
    if c = ')' then some rest
    else if c = '\n' then none
    else findParen rest

/-- Scanner for `.*?\]\(.*?\)` with the non-greedy backtracking of `re`:
at each `](`, try the paren tail; on failure the outer `.*?` swallows the
`]` and scanning continues.  Newlines stop the scan (`.` excludes `\n`). -/
def findClose : Str → Option Str
  | [] => none
  | c :: rest =>
    if c = '\n' then none
    else if c = ']' then
      match rest with
      | d :: r2 =>
        if d = '(' then
          match findParen r2 with
          | some rem => some rem
          | none => findClose rest
        else findClose rest
      | [] => none
    else findClose rest

/-- Match `!\[.*?\]\(.*?\)` at the head of the string, returning the rest. -/
def mdMatch : Str → Option Str
  | c1 :: c2 :: rest => if c1 = '!' && c2 = '[' then findClose rest else none
  | _ => none

/-- `len(re.findall(r'!\[.*?\]\(.*?\)', text))`: count markdown image
references, leftmost non-overlapping. -/
def mdCountAux : Nat → Str → Nat
  | 0, _ => 0
  | _ + 1, [] => 0
  | f + 1, c :: rest =>
    match mdMatch (c :: rest) with
    | some rem => 1 + mdCountAux f rem
    | none => mdCountAux f rest

def countMd (l : Str) : Nat := mdCountAux l.length l

/-- Match `\[IMAGE[_\s]PROMPT:[^\]]+\]` (IGNORECASE) at the head. -/
def tagMatch (l : Str) : Option Str :=
  match l with
  | '[' :: rest =>
    match matchCaseless ("image".data) rest with
    | none => none
    | some r1 =>
      match r1 with
      | c :: r2 =>
        if c = '_' || isPyWs c then
          match matchCaseless ("prompt:".data) r2 with
          | none => none
          | some r3 =>
            let body := r3.takeWhile (fun x => x ≠ ']')
            match r3.drop body.length with
            | ']' :: r4 => if body = [] then none else some r4
            | _ => none
        else none
      | [] => none
  | _ => none

/-- `re.sub(r'\[IMAGE[_\s]PROMPT:[^\]]+\]', '', content, flags=re.IGNORECASE)`. -/
def cleanTagsAux : Nat → Str → Str
  | 0, l => l
  | _ + 1, [] => []
  | f + 1, c :: rest =>
    match tagMatch (c :: rest) with
    | some rem => cleanTagsAux f rem
    | none => c :: cleanTagsAux f rest

def cleanTags (l : Str) : Str := cleanTagsAux l.length l

/-- One step of pass 1: accept the cleaned line when its length is ≥ 15,
marking `done` once `image_count` prompts are collected. -/
def lineStep (image_count : Nat) (acc : List Str × Bool) (line : Str) :
    List Str × Bool :=
  if acc.2 then acc
  else
    let l := cleanLine1 line
    if 15 ≤ l.length then (acc.1 ++ [l], decide (image_count ≤ acc.1.length + 1))
    else acc

/-- Pass 1 (line-based) of the prompt parsing in
`generate_image_prompts_from_article`: clean each line and accept it when the
cleaned length is at least 15, stopping at `image_count` prompts. -/
def promptLinePass (content : Str) (image_count : Nat) : List Str :=
  ((splitNl content).foldl (lineStep image_count) ([], false)).1

/-- One step of pass 2: accept the cleaned segment when it has length ≥ 15
and is not already among the collected prompts. -/
def paraStep (image_count : Nat) (acc : List Str × Bool) (seg : Str) :
    List Str × Bool :=
  if acc.2 then acc
  else
    let s := cleanSegment2 seg
    if 15 ≤ s.length && !acc.1.contains s then
      (acc.1 ++ [s], decide (image_count ≤ acc.1.length + 1))
    else acc

/-- Pass 2 (paragraph-based): drop code fences, re-split on blank-line
boundaries, clean each segment (numbering, bullets, quotes — not labels),
accept unseen segments of length ≥ 15. -/
def promptParaPass (content : Str) (image_count : Nat) (ps0 : List Str) : List Str :=
  ((splitBlank (stripFences content)).foldl (paraStep image_count) (ps0, false)).1

/-- One step of pass 3: accept the cleaned sentence when it has length ≥ 30
and is unseen. -/
def sentStep (image_count : Nat) (acc : List Str × Bool) (sen : Str) :
    List Str × Bool :=
  if acc.2 then acc
  else
    let s := cleanSentence3 sen
    if 30 ≤ s.length && !acc.1.contains s then
      (acc.1 ++ [s], decide (image_count ≤ acc.1.length + 1))
    else acc

/-- Pass 3 (sentence-based): split on sentence terminators, accept unseen
segments of length ≥ 30. -/
def promptSentPass (content : Str) (image_count : Nat) (ps0 : List Str) : List Str :=
  ((splitSent content).foldl (sentStep image_count) (ps0, false)).1

/-- Parsing of a successful Ollama response inside
`generate_image_prompts_from_article`: three passes of decreasing strictness,
each gated on still having fewer than `image_count` prompts. -/
def parsePrompts (raw : Str) (image_count : Nat) : List Str :=
  let content := pyStrip raw
  let p1 := promptLinePass content image_count
  let p2 := if p1.length < image_count then promptParaPass content image_count p1 else p1
  if p2.length < image_count && content ≠ [] then promptSentPass content image_count p2
  else p2

/-- `generate_image_prompts_from_article`: the Ollama call is the oracle value
(`.error` = the raised-exception path, caught and mapped to `[]`; a `success`
flag and content string otherwise — a falsy flag or empty content also give
`[]`). -/
def generate_image_prompts_from_article (ollamaRes : Except Str (Bool × Str))
    (image_count : Nat) : List Str :=
  match ollamaRes with
  | .error _ => []
  | .ok (ok, content) =>
    if ok && content ≠ [] then parsePrompts content image_count
    else []

/-- Python `prompt.split()` (whitespace runs, empties dropped). -/
def pySplitWsAux : Str → Str → List Str
  | [], cur => if cur = [] then [] else [cur.reverse]
  | c :: rest, cur =>
    if isPyWs c then
      if cur = [] then pySplitWsAux rest []
      else cur.reverse :: pySplitWsAux rest []
    else pySplitWsAux rest (c :: cur)

def pySplitWs (l : Str) : List Str := pySplitWsAux l []

def lowerStr (l : Str) : Str := l.map Char.toLower

def natStr (n : Nat) : Str := (Nat.repr n).data

/-- `_generate_alt_text`: first 8 words of the prompt with the filler words
`professional`, `high`, `quality`, `detailed` removed (case-insensitively). -/
def generate_alt_text (prompt : Str) : Str :=
  let words := (pySplitWs prompt).take 8
  let clean_words := words.filter fun w =>
    !([("professional".data), ("high".data), ("quality".data),
       ("detailed".data)].contains (lowerStr w))
  if clean_words = [] then ("Article image".data) else joinWith [' '] clean_words

/-- The per-prompt result dict of `_generate_single_image`
(`success`, `url`, `error`, `generation_time`; absent keys are `none`). -/
structure ImageResult where
  success : Bool
  url : Option Str
  error : Option Str
  generationTime : Option Nat
deriving DecidableEq, Repr

/-- `{"success": False, "error": e}`. -/
def failRes (e : Str) : ImageResult :=
  { success := false, url := none, error := some e, generationTime := none }

/-- The markdown block `f'\n\n![{alt_text}]({image_url})\n\n'`. -/
def mkImageMarkdown (alt url : Str) : Str :=
  ("\n\n![".data) ++ alt ++ ("](".data) ++ url ++ (")\n\n".data)

/-- The `successful_images` list of `_embed_images_at_positions`: one markdown
block per success whose `url` is a nonempty, non-whitespace string. -/
def successfulImages (prompts : List Str) (results : List ImageResult) : List Str :=
  (prompts.zip results).filterMap fun pr =>
    if pr.2.success then
      match pr.2.url with
      | some u =>
        if u ≠ [] && pyStrip u ≠ [] then
          some (mkImageMarkdown (generate_alt_text pr.1) u)
        else none
      | none => none
    else none

/-- `lines[j].strip()` is nonempty and does not start with `#`. -/
def contentLine (lines : List Str) (j : Nat) : Bool :=
  let lj := pyStrip (lines.getD j [])
  lj ≠ [] && !(['#'].isPrefixOf lj)

/-- `j + 1` is in range and `lines[j+1].strip()` is blank. -/
def nextBlank (lines : List Str) (j : Nat) : Bool :=
  j + 1 < lines.length && pyStrip (lines.getD (j + 1) []) = []

/-- The inner scan of strategy 1: from a heading at `i`, the first content
line `j` in `range(i+1, min(i+10, len))` whose successor is blank or out of
range gives `para_end = j+1`; otherwise `para_end = i+1`. -/
def paraEndFrom (lines : List Str) (i : Nat) : Nat :=
  let L := lines.length
  let js := (List.range (min (i + 10) L)).drop (i + 1)
  match js.find? (fun j => contentLine lines j &&
      (nextBlank lines j || decide (L ≤ j + 1))) with
  | some j => j + 1
  | none => i + 1

def headingAt (lines : List Str) (i : Nat) : Bool :=
  ("## ".data).isPrefixOf (pyStrip (lines.getD i []))

/-- `if p not in insertion_points: insertion_points.append(p)`. -/
def addIfNew (pts : List Nat) (p : Nat) : List Nat :=
  if pts.contains p then pts else pts ++ [p]

/-- Strategy 1: one insertion point after the first paragraph of each H2. -/
def strat1 (lines : List Str) (k : Nat) : List Nat :=
  ((List.range lines.length).foldl (fun acc i =>
    let (pts, done) := acc
    if done then acc
    else if headingAt lines i then
      let pts2 := addIfNew pts (paraEndFrom lines i)
      (pts2, decide (k ≤ pts2.length))
    else acc) ([], false)).1

/-- Strategy 2: paragraph breaks scanned from the end of the document. -/
def strat2 (lines : List Str) (k : Nat) (pts0 : List Nat) : List Nat :=
  ((List.range lines.length).reverse.foldl (fun acc i =>
    let (pts, done) := acc
    if done then acc
    else if contentLine lines i then
      if nextBlank lines i then
        let pts2 := addIfNew pts (i + 1)
        (pts2, decide (k ≤ pts2.length))
      else acc
    else acc) (pts0, false)).1

/-- Strategy 3: evenly spaced points with a floor of 10 lines. -/
def strat3 (lines : List Str) (k : Nat) (pts0 : List Nat) : List Nat :=
  let total := lines.length
  let spacing := max (total / (k + 1)) 10
  (List.range k).foldl (fun pts i0 =>
    addIfNew pts (min ((i0 + 1) * spacing) (total - 1))) pts0

/-- The three placement strategies, each tried only while short of points. -/
def findPoints (lines : List Str) (k : Nat) : List Nat :=
  let p1 := strat1 lines k
  if p1.length < k then
    let p2 := strat2 lines k p1
    if p2.length < k then strat3 lines k p2 else p2
  else p1

def insertSorted (x : Nat) : List Nat → List Nat
  | [] => [x]
  | y :: ys => if x ≤ y then x :: y :: ys else y :: insertSorted x ys

/-- Python `sorted` on the (duplicate-free) insertion points. -/
def sortNat : List Nat → List Nat
  | [] => []
  | x :: xs => insertSorted x (sortNat xs)

/-- Python `list.insert(n, x)` (appends when `n` is past the end). -/
def pyInsert {α : Type} : Nat → α → List α → List α
  | 0, x, l => x :: l
  | _ + 1, x, [] => [x]
  | n + 1, x, a :: l => a :: pyInsert n x l

/-- The insertion loop: pair positions in descending order with blocks in
reverse order (`image_idx = len(si) - 1 - idx`) and insert at `pos + 1`. -/
def insertImages (lines : List Str) (pts : List Nat) (blocks : List Str) : List Str :=
  (pts.reverse.zip blocks.reverse).foldl
    (fun ls pb => pyInsert (pb.1 + 1) pb.2 ls) lines

/-- `_embed_images_at_positions` (source lines 476-595).  The `try` block is
total here; the source's `except` fallback is the same append-at-end text as
the zero-marker fallback, so the model keeps a single fallback branch. -/
def embed_images_at_positions (content : Str) (prompts : List Str)
    (results : List ImageResult) : Str :=
  let cleaned := cleanTags content
  let si := successfulImages prompts results
  if si = [] then cleaned
  else
    let lines := splitNl cleaned
    let pts := sortNat ((findPoints lines si.length).take si.length)
    let lines2 := insertImages lines pts (si.map pyStrip)
    let result := joinWith ['\n'] lines2
    if countMd result = 0 then
      cleaned ++ ("\n\n".data) ++ joinWith ("\n\n".data) (si.map pyStrip)
    else result

/-- One recorded call to an external collaborator. -/
inductive Event where
  | extractCall
  | genCall (prompt : Str)
  | uploadCall (srcUrl : Str)
  | deleteCall (url : Str)
  | safetyCall (url : Str)
deriving DecidableEq, Repr

/-- Result dict of `hf_api_service.generate_image`. -/
structure HFRes where
  success : Bool
  downloadUrl : Option Str
  error : Option Str
  generationTime : Option Nat
deriving DecidableEq, Repr

/-- Result dict of `s3_service.upload_image_to_s3`. -/
structure S3Res where
  success : Bool
  publicUrl : Option Str
  error : Option Str
deriving DecidableEq, Repr

/-- The `(is_safe, error_msg, detection_results)` triple of
`safety_service.check_image_safety` (detection results unused downstream). -/
structure SafetyRes where
  isSafe : Bool
  errMsg : Str
deriving Repr

/-- The external collaborators of the pipeline.  `.error` marks a raised
exception (carrying `str(e)`); `.ok` a returned dict. -/
structure Oracles where
  ollama : Except Str (Bool × Str)
  hfGen : Str → Except Str HFRes
  s3Upload : Str → Except Str S3Res
  hfDelete : Str → Except Str Bool
  safety : Str → SafetyRes

/-- `_generate_single_image` with its call trace: generate, then upload the
HuggingFace download URL to S3, then best-effort-delete the temporary file.
Any raised exception is caught and becomes a failure record. -/
def generate_single_image (O : Oracles) (prompt : Str) : ImageResult × List Event :=
  match O.hfGen prompt with
  | .error e => (failRes e, [.genCall prompt])
  | .ok r =>
    if r.success then
      match r.downloadUrl with
      | some u =>
        if u ≠ [] then
          match O.s3Upload u with
          | .error e => (failRes e, [.genCall prompt, .uploadCall u])
          | .ok s3 =>
            if s3.success then
              match O.hfDelete u with
              | .error e => (failRes e, [.genCall prompt, .uploadCall u, .deleteCall u])
              | .ok _ =>
                ({ success := true, url := s3.publicUrl, error := none,
                   generationTime := r.generationTime },
                 [.genCall prompt, .uploadCall u, .deleteCall u])
            else
              (failRes (("Failed to save image to storage: ".data) ++
                  s3.error.getD ("Unknown S3 upload error".data)),
               [.genCall prompt, .uploadCall u])
        else (failRes ("Image generated but no URL returned".data), [.genCall prompt])
      | none => (failRes ("Image generated but no URL returned".data), [.genCall prompt])
    else (failRes (r.error.getD ("Unknown error".data)), [.genCall prompt])

/-- Outcome of one task as seen by `asyncio.gather(..., return_exceptions=True)`:
either the task's returned dict or the exception it raised. -/
inductive TaskOutcome where
  | exn (e : Str)
  | res (r : ImageResult)
deriving DecidableEq, Repr

/-- The post-`gather` loop of `_generate_images_batch`: exceptions become
`{"success": False, "error": str(e)}`, results pass through, order kept. -/
def processGatherResults (outcomes : List TaskOutcome) : List ImageResult :=
  outcomes.map fun o =>
    match o with
    | .exn e => failRes e
    | .res r => r

/-- `_generate_images_batch`: one task per prompt, results joined in prompt
order (`asyncio.gather` preserves argument order). -/
def generate_images_batch (O : Oracles) (prompts : List Str) :
    List ImageResult × List Event :=
  let pairs := prompts.map (generate_single_image O)
  (processGatherResults (pairs.map fun p => .res p.1), (pairs.map Prod.snd).flatten)

/-- Step 4 of `_generate_and_embed_images_internal`: submit each successful
result's URL to the safety classifier; an unsafe verdict replaces the result
with a failure record carrying the classifier's explanation. -/
def checkSafety (O : Oracles) : List ImageResult → List ImageResult × List Event
  | [] => ([], [])
  | r :: rest =>
    let tail := checkSafety O rest
    if r.success then
      match r.url with
      | some u =>
        if u ≠ [] then
          ((if (O.safety u).isSafe then r
            else failRes (("Image blocked by safety check: ".data) ++
              (O.safety u).errMsg)) :: tail.1,
           .safetyCall u :: tail.2)
        else (r :: tail.1, tail.2)
      | none => (r :: tail.1, tail.2)
    else (r :: tail.1, tail.2)

/-- One entry of the `images` metadata list. -/
structure ImageMeta where
  index : Nat
  prompt : Str
  url : Str
  generationTime : Option Nat
  altText : Str
deriving DecidableEq, Repr

/-- The metadata collection loop of `_generate_and_embed_images_internal`
(`enumerate(zip(prompts, results))`): one record per success with a truthy URL. -/
def collectMetadataAux (i : Nat) : List (Str × ImageResult) → List ImageMeta
  | [] => []
  | (p, r) :: rest =>
    let tail := collectMetadataAux (i + 1) rest
    if r.success then
      match r.url with
      | some u =>
        if u ≠ [] then
          { index := i + 1, prompt := p, url := u,
            generationTime := r.generationTime,
            altText := generate_alt_text p } :: tail
        else tail
      | none => tail
    else tail

def collectMetadata (prompts : List Str) (results : List ImageResult) : List ImageMeta :=
  collectMetadataAux 0 (prompts.zip results)

/-- The dict returned by `generate_and_embed_images`. -/
structure PipeResult where
  success : Bool
  content : Str
  images : List ImageMeta
  message : Str
deriving DecidableEq, Repr

/-- The style-modifier dictionary with default `", high quality, professional"`. -/
def styleModifier (style : Str) : Str :=
  if style = ("photo".data) then (", professional photography, high quality, realistic".data)
  else if style = ("illustration".data) then
    (", digital illustration, vibrant colors, modern style".data)
  else if style = ("infographic".data) then
    (", infographic design, clean layout, professional".data)
  else if style = ("cartoon".data) then (", cartoon style, animated, colorful, playful".data)
  else if style = ("realistic".data) then
    (", photorealistic, highly detailed, realistic, professional photography".data)
  else if style = ("auto".data) then (", high quality, professional, detailed".data)
  else (", high quality, professional".data)

/-- `min(image_count, 2)` for a positive `image_count`. -/
def pipelineCount (image_count : Int) : Nat := if 2 ≤ image_count then 2 else 1

/-- Steps 2-5 of `_generate_and_embed_images_internal` (style modifier, batch
generation, safety check, embedding, metadata, message), reached once at least
one prompt was extracted. -/
def pipelineMain (O : Oracles) (article_content : Str) (count : Nat)
    (image_style : Str) (prompts0 : List Str) : PipeResult × List Event :=
  let prompts := prompts0.take count
  let enhanced := prompts.map fun p => p ++ styleModifier image_style
  let batch := generate_images_batch O enhanced
  let safe := checkSafety O batch.1
  let final_content := embed_images_at_positions article_content prompts safe.1
  let images_in_final := countMd final_content
  let metadata := collectMetadata prompts safe.1
  let success_count := (safe.1.filter fun r => r.success).length
  let message := ("Generated ".data) ++ natStr success_count ++ ("/".data) ++
    natStr prompts.length ++ (" images successfully".data) ++
    (if 0 < success_count ∧ images_in_final = 0 then
      (" (WARNING: Images may not be visible in content)".data) else [])
  ({ success := true, content := final_content, images := metadata,
     message := message },
   .extractCall :: (batch.2 ++ safe.2))

/-- `_generate_and_embed_images_internal` with its call trace.  The big
`try/except` never fires in the model because every oracle exception is
already handled inside the helpers it calls. -/
def generate_and_embed_images_internal (O : Oracles) (article_content : Str)
    (image_count : Int) (image_style : Str) : PipeResult × List Event :=
  if image_count ≤ 0 then
    ({ success := true, content := article_content, images := [],
       message := ("No images requested".data) }, [])
  else
    let count := pipelineCount image_count
    let prompts0 := generate_image_prompts_from_article O.ollama count
    if prompts0 = [] then
      ({ success := false, content := article_content, images := [],
         message := ("Failed to generate image prompts".data) }, [.extractCall])
    else pipelineMain O article_content count image_style prompts0

/-- Oracle valuation: one good prompt, generation and upload succeed, the
safety classifier rejects the image. -/
def oracleUnsafe : Oracles where
  ollama := .ok (true, ("A football field at sunset scene".data))
  hfGen := fun _ => .ok
    { success := true
      downloadUrl := some ("hf1".data)
      error := none
      generationTime := some 3 }
  s3Upload := fun _ => .ok
    { success := true
      publicUrl := some ("s3url".data)
      error := none }
  hfDelete := fun _ => .ok true
  safety := fun _ => { isSafe := false, errMsg := ("nsfw".data) }

/-- Oracle valuation: one good prompt, the image-generation call raises. -/
def oracleAllFail : Oracles where
  ollama := .ok (true, ("A football field at sunset scene".data))
  hfGen := fun _ => .error ("connection error".data)
  s3Upload := fun _ => .ok { success := false, publicUrl := none, error := none }
  hfDelete := fun _ => .ok true
  safety := fun _ => { isSafe := true, errMsg := [] }

/-- C10: with `image_count ≤ 0` the pipeline returns success with the article
unchanged, an empty image list and the message `No images requested`, and the
empty call trace shows that neither prompt extraction nor any generation,
upload or safety call is performed. -/
theorem c10_no_images_requested (O : Oracles) (article : Str) (n : Int)
    (style : Str) (h : n ≤ 0) :
    generate_and_embed_images_internal O article n style =
      ({ success := true, content := article, images := [],
         message := ("No images requested".data) }, []) := by
  unfold generate_and_embed_images_internal
  rw [if_pos h]

/-- Witness for C10 at `image_count = 0`. -/
theorem c10_witness :
    generate_and_embed_images_internal oracleUnsafe ("My article.".data) 0 ("auto".data) =
      ({ success := true, content := ("My article.".data), images := [],
         message := ("No images requested".data) }, []) :=
  c10_no_images_requested oracleUnsafe ("My article.".data) 0 ("auto".data) (by decide)

/-- C9: the embedder is a pure function of `(content, prompts, results)`
(it reads no clock, randomness or hidden state), so two calls on equal
inputs give byte-identical output. -/
theorem c9_embedder_deterministic (c c' : Str) (p p' : List Str)
    (r r' : List ImageResult) (hc : c = c') (hp : p = p') (hr : r = r') :
    embed_images_at_positions c p r = embed_images_at_positions c' p' r' := by
  rw [hc, hp, hr]

/-- Witness for C9 on a concrete input. -/
theorem c9_witness :
    embed_images_at_positions ("x".data) [("p".data)] [] =
      embed_images_at_positions ("x".data) [("p".data)] [] :=
  c9_embedder_deterministic _ _ _ _ _ _ rfl rfl rfl

/-- C6: `_generate_images_batch` returns one result per prompt in prompt
order (element `i` is exactly prompt `i`'s outcome, as `asyncio.gather`
preserves argument order), and the post-`gather` loop converts a task
exception into a `success=False` failure record at its own index, leaving
sibling results untouched. -/
theorem c6_batch_order_and_exception_conversion (O : Oracles)
    (prompts : List Str) (outcomes : List TaskOutcome) :
    (generate_images_batch O prompts).1.length = prompts.length ∧
    (∀ i : Nat, (generate_images_batch O prompts).1[i]? =
      (prompts[i]?).map fun p => (generate_single_image O p).1) ∧
    (processGatherResults outcomes).length = outcomes.length ∧
    (∀ i : Nat, (processGatherResults outcomes)[i]? =
      (outcomes[i]?).map fun o =>
        match o with
        | .exn e => failRes e
        | .res r => r) := by
  refine ⟨?_, ?_, ?_, ?_⟩
  · simp [generate_images_batch, processGatherResults]
  · intro i
    simp only [generate_images_batch, processGatherResults, List.map_map,
      List.getElem?_map]
    rfl
  · simp [processGatherResults]
  · intro i
    simp [processGatherResults, List.getElem?_map]

/-- C2 is refuted on the zero-successes side: with prompts extracted but the
only generation call failing, the pipeline returns `success = True` (with the
`Generated 0/1` message), not the `success = false` the claim requires. -/
theorem c2_counterexample :
    (generate_and_embed_images_internal oracleAllFail ("My article.".data) 1
      ("auto".data)).1 =
      { success := true, content := ("My article.".data), images := [],
        message := ("Generated 0/1 images successfully".data) } := by decide

/-- C3 is refuted: the call trace shows the durable-storage upload (and the
temporary-file delete) happening strictly before the safety call, and the
safety verdict for this image is unsafe — an unsafe image was uploaded. -/
theorem c3_counterexample :
    (generate_and_embed_images_internal oracleUnsafe ("My article.".data) 1
      ("auto".data)).2 =
      [.extractCall,
       .genCall (("A football field at sunset scene".data) ++
         (", high quality, professional, detailed".data)),
       .uploadCall ("hf1".data), .deleteCall ("hf1".data),
       .safetyCall ("s3url".data)] ∧
    (oracleUnsafe.safety ("s3url".data)).isSafe = false ∧
    (generate_and_embed_images_internal oracleUnsafe ("My article.".data) 1
      ("auto".data)).1.images = [] := by decide

/-- C5 is refuted as stated: a successful image whose URL is the non-empty
string `" "` is dropped by the embedder's `len(url.strip()) == 0` check, so
the returned text contains zero markdown image markers. -/
theorem c5_counterexample :
    embed_images_at_positions ("x".data) [("prompt one".data)]
      [{ success := true, url := some [' '], error := none,
         generationTime := none }] = ("x".data) ∧
    countMd ("x".data) = 0 := by decide

/-- C8 is refuted on the label-prefix part: pass 1 strips `Prompt 1:` from a
line, but the paragraph-based pass 2 keeps it (its cleaning has no label
`re.sub`), so the second collected prompt still carries the label prefix. -/
theorem c8_counterexample :
    parsePrompts ("Prompt 1: aaaaaaaaaaaaaaaaa".data) 2 =
      [("aaaaaaaaaaaaaaaaa".data), ("Prompt 1: aaaaaaaaaaaaaaaaa".data)] ∧
    cleanLine1 ("Prompt 1: aaaaaaaaaaaaaaaaa".data) = ("aaaaaaaaaaaaaaaaa".data) := by
  decide

theorem successfulImages_nil_of_fail (prompts : List Str)
    (results : List ImageResult) (h : ∀ r ∈ results, r.success = false) :
    successfulImages prompts results = [] := by
  unfold successfulImages
  rw [List.filterMap_eq_nil_iff]
  intro pr hpr
  have h2 : pr.2 ∈ results := (List.of_mem_zip hpr).2
  simp [h pr.2 h2]

theorem collectMetadataAux_nil_of_fail :
    ∀ (i : Nat) (l : List (Str × ImageResult)),
      (∀ pr ∈ l, pr.2.success = false) → collectMetadataAux i l = [] := by
  intro i l
  induction l generalizing i with
  | nil => intro _; rfl
  | cons pr rest ih =>
    intro h
    obtain ⟨p, r⟩ := pr
    have hr : r.success = false := h (p, r) (by simp)
    simp only [collectMetadataAux, hr]
    simp only [Bool.false_eq_true, if_false]
    exact ih (i + 1) fun q hq => h q (List.mem_cons_of_mem _ hq)

theorem embed_all_fail (content : Str) (prompts : List Str)
    (results : List ImageResult) (h : ∀ r ∈ results, r.success = false) :
    embed_images_at_positions content prompts results = cleanTags content := by
  unfold embed_images_at_positions
  rw [successfulImages_nil_of_fail prompts results h]
  simp

theorem pipelineMain_all_fail (O : Oracles) (article : Str) (count : Nat)
    (style : Str) (prompts0 : List Str)
    (h : ∀ r ∈ (checkSafety O (generate_images_batch O
        ((prompts0.take count).map fun p => p ++ styleModifier style)).1).1,
      r.success = false) :
    (pipelineMain O article count style prompts0).1 =
      { success := true, content := cleanTags article, images := [],
        message := ("Generated ".data) ++ natStr 0 ++ ("/".data) ++
          natStr (prompts0.take count).length ++ (" images successfully".data) } := by
  unfold pipelineMain
  have hfilter : ((checkSafety O (generate_images_batch O
      ((prompts0.take count).map fun p => p ++ styleModifier style)).1).1.filter
      fun r => r.success).length = 0 := by
    rw [List.length_eq_zero]
    rw [List.filter_eq_nil_iff]
    intro r hr
    simp [h r hr]
  have hembed := embed_all_fail article (prompts0.take count)
    (checkSafety O (generate_images_batch O
      ((prompts0.take count).map fun p => p ++ styleModifier style)).1).1 h
  have hmeta := collectMetadataAux_nil_of_fail 0
    ((prompts0.take count).zip (checkSafety O (generate_images_batch O
      ((prompts0.take count).map fun p => p ++ styleModifier style)).1).1)
    (fun pr hpr => h pr.2 (List.of_mem_zip hpr).2)
  simp only [collectMetadata] at *
  simp only [hfilter, hembed, hmeta]
  simp

/-- C2 corrected.  Zero extracted prompts still give the claimed structured
outcome (`success = false`, original text, empty images, message).  But with
prompts extracted and zero images successfully produced, the pipeline returns
`success = true` with an empty images list, the text equal to the original
with `[IMAGE_PROMPT:...]` tags removed, and the human-readable message
`Generated 0/k images successfully`; no exception reaches the caller in
either case. -/
theorem c2_amended (O : Oracles) (article : Str) (n : Int) (style : Str)
    (hn : 0 < n) :
    (generate_image_prompts_from_article O.ollama (pipelineCount n) = [] →
      (generate_and_embed_images_internal O article n style).1 =
        { success := false, content := article, images := [],
          message := ("Failed to generate image prompts".data) }) ∧
    (∀ prompts0,
      generate_image_prompts_from_article O.ollama (pipelineCount n) = prompts0 →
      prompts0 ≠ [] →
      (∀ r ∈ (checkSafety O (generate_images_batch O
          ((prompts0.take (pipelineCount n)).map
            fun p => p ++ styleModifier style)).1).1, r.success = false) →
      (generate_and_embed_images_internal O article n style).1 =
        { success := true, content := cleanTags article, images := [],
          message := ("Generated ".data) ++ natStr 0 ++ ("/".data) ++
            natStr (prompts0.take (pipelineCount n)).length ++
            (" images successfully".data) }) := by
  have hn' : ¬ n ≤ 0 := by omega
  constructor
  · intro hp0
    unfold generate_and_embed_images_internal
    rw [if_neg hn']
    simp only [hp0, if_pos]
  · intro prompts0 hp0 hne h
    unfold generate_and_embed_images_internal
    rw [if_neg hn']
    simp only [hp0]
    rw [if_neg hne]
    exact pipelineMain_all_fail O article (pipelineCount n) style prompts0 h

/-- Witness for C2 (amended) with all generation calls failing. -/
theorem c2_witness :
    (generate_and_embed_images_internal oracleAllFail ("My article.".data) 1
      ("auto".data)).1 =
      { success := true, content := cleanTags ("My article.".data), images := [],
        message := ("Generated ".data) ++ natStr 0 ++ ("/".data) ++
          natStr ((generate_image_prompts_from_article oracleAllFail.ollama
            (pipelineCount 1)).take (pipelineCount 1)).length ++
          (" images successfully".data) } :=
  (c2_amended oracleAllFail ("My article.".data) 1 ("auto".data) (by decide)).2
    _ rfl (by decide) (by decide)

theorem paraStep_cases (image_count : Nat) (ps0 : List Str) (d : Bool) (seg : Str) :
    paraStep image_count (ps0, d) seg = (ps0, d) ∨
    (paraStep image_count (ps0, d) seg =
        (ps0 ++ [cleanSegment2 seg], decide (image_count ≤ ps0.length + 1)) ∧
      15 ≤ (cleanSegment2 seg).length ∧ cleanSegment2 seg ∉ ps0) := by
  unfold paraStep
  cases d with
  | true => left; simp
  | false =>
    simp only [Bool.false_eq_true, if_false]
    split
    case isTrue hc =>
      right
      simp only [Bool.and_eq_true, decide_eq_true_eq, Bool.not_eq_true'] at hc
      exact ⟨rfl, hc.1, by simpa using hc.2⟩
    case isFalse _ => left; rfl

theorem paraPass_extends (image_count : Nat) :
    ∀ (segs : List Str) (ps0 : List Str) (d : Bool),
      ∃ added, (segs.foldl (paraStep image_count) (ps0, d)).1 = ps0 ++ added ∧
        ∀ s ∈ added, 15 ≤ s.length ∧ s ∉ ps0 ∧
          ∃ seg ∈ segs, s = cleanSegment2 seg := by
  intro segs
  induction segs with
  | nil => intro ps0 d; exact ⟨[], by simp, by simp⟩
  | cons seg rest ih =>
    intro ps0 d
    rcases paraStep_cases image_count ps0 d seg with hstep | ⟨hstep, hlen, hnin⟩
    · obtain ⟨added, heq, hprop⟩ := ih ps0 d
      refine ⟨added, ?_, ?_⟩
      · rw [List.foldl_cons, hstep]; exact heq
      · intro s hs
        obtain ⟨h1, h2, seg2, hseg2, h3⟩ := hprop s hs
        exact ⟨h1, h2, seg2, List.mem_cons_of_mem _ hseg2, h3⟩
    · obtain ⟨added, heq, hprop⟩ :=
        ih (ps0 ++ [cleanSegment2 seg]) (decide (image_count ≤ ps0.length + 1))
      refine ⟨cleanSegment2 seg :: added, ?_, ?_⟩
      · rw [List.foldl_cons, hstep, heq]
        simp
      · intro s hs
        rcases List.mem_cons.mp hs with hs | hs
        · exact hs ▸ ⟨hlen, hnin, seg, by simp, rfl⟩
        · obtain ⟨h1, h2, seg2, hseg2, h3⟩ := hprop s hs
          exact ⟨h1, fun hmem => h2 (by simp [hmem]), seg2,
            List.mem_cons_of_mem _ hseg2, h3⟩

/-- C8 corrected.  When pass 1 collects fewer than `image_count` prompts, the
second pass re-splits the fence-stripped raw response on blank-line
boundaries; every prompt it adds is an unseen segment of length ≥ 15 cleaned
by the numbering, bullet and quote stripping of pass 1 — but, unlike the
claim, without the label-prefix (`Prompt 1:`) stripping, which pass 2 omits. -/
theorem c8_amended (raw : Str) (n : Nat)
    (h : (promptLinePass (pyStrip raw) n).length < n) :
    (parsePrompts raw n =
      (if (promptParaPass (pyStrip raw) n (promptLinePass (pyStrip raw) n)).length < n
          ∧ pyStrip raw ≠ [] then
        promptSentPass (pyStrip raw) n
          (promptParaPass (pyStrip raw) n (promptLinePass (pyStrip raw) n))
      else promptParaPass (pyStrip raw) n (promptLinePass (pyStrip raw) n))) ∧
    (∃ added,
      promptParaPass (pyStrip raw) n (promptLinePass (pyStrip raw) n) =
        promptLinePass (pyStrip raw) n ++ added ∧
      ∀ s ∈ added, 15 ≤ s.length ∧ s ∉ promptLinePass (pyStrip raw) n ∧
        ∃ seg ∈ splitBlank (stripFences (pyStrip raw)), s = cleanSegment2 seg) := by
  constructor
  · unfold parsePrompts
    dsimp only
    rw [if_pos h]
    split
    case isTrue h2 =>
      simp only [Bool.and_eq_true, decide_eq_true_eq] at h2
      rw [if_pos h2]
    case isFalse h2 =>
      simp only [Bool.and_eq_true, decide_eq_true_eq] at h2
      rw [if_neg h2]
  · exact paraPass_extends n (splitBlank (stripFences (pyStrip raw)))
      (promptLinePass (pyStrip raw) n) false

/-- Witness for C8 (amended) on the counterexample input: pass 1 yields one
prompt, fewer than the two requested. -/
theorem c8_witness :
    (parsePrompts ("Prompt 1: aaaaaaaaaaaaaaaaa".data) 2 =
      (if (promptParaPass (pyStrip ("Prompt 1: aaaaaaaaaaaaaaaaa".data)) 2
            (promptLinePass (pyStrip ("Prompt 1: aaaaaaaaaaaaaaaaa".data)) 2)).length < 2
          ∧ pyStrip ("Prompt 1: aaaaaaaaaaaaaaaaa".data) ≠ [] then
        promptSentPass (pyStrip ("Prompt 1: aaaaaaaaaaaaaaaaa".data)) 2
          (promptParaPass (pyStrip ("Prompt 1: aaaaaaaaaaaaaaaaa".data)) 2
            (promptLinePass (pyStrip ("Prompt 1: aaaaaaaaaaaaaaaaa".data)) 2))
      else promptParaPass (pyStrip ("Prompt 1: aaaaaaaaaaaaaaaaa".data)) 2
        (promptLinePass (pyStrip ("Prompt 1: aaaaaaaaaaaaaaaaa".data)) 2))) ∧
    (∃ added,
      promptParaPass (pyStrip ("Prompt 1: aaaaaaaaaaaaaaaaa".data)) 2
          (promptLinePass (pyStrip ("Prompt 1: aaaaaaaaaaaaaaaaa".data)) 2) =
        promptLinePass (pyStrip ("Prompt 1: aaaaaaaaaaaaaaaaa".data)) 2 ++ added ∧
      ∀ s ∈ added, 15 ≤ s.length ∧
        s ∉ promptLinePass (pyStrip ("Prompt 1: aaaaaaaaaaaaaaaaa".data)) 2 ∧
        ∃ seg ∈ splitBlank (stripFences (pyStrip ("Prompt 1: aaaaaaaaaaaaaaaaa".data))),
          s = cleanSegment2 seg) :=
  c8_amended ("Prompt 1: aaaaaaaaaaaaaaaaa".data) 2 (by decide)

theorem single_shape (O : Oracles) (p : Str) :
    (∃ e, generate_single_image O p = (failRes e, [.genCall p])) ∨
    (∃ u e, generate_single_image O p = (failRes e, [.genCall p, .uploadCall u])) ∨
    (∃ u s3 t, O.s3Upload u = .ok s3 ∧ s3.success = true ∧
      generate_single_image O p =
        ({ success := true, url := s3.publicUrl, error := none, generationTime := t },
         [.genCall p, .uploadCall u, .deleteCall u])) ∨
    (∃ u e, generate_single_image O p =
      (failRes e, [.genCall p, .uploadCall u, .deleteCall u])) := by
  unfold generate_single_image
  split
  · exact Or.inl ⟨_, rfl⟩
  · split
    · split
      · split
        · split
          · exact Or.inr (Or.inl ⟨_, _, rfl⟩)
          · split
            · split
              · exact Or.inr (Or.inr (Or.inr ⟨_, _, rfl⟩))
              · exact Or.inr (Or.inr (Or.inl
                  ⟨_, _, _, by assumption, by assumption, rfl⟩))
            · exact Or.inr (Or.inl ⟨_, _, rfl⟩)
        · exact Or.inl ⟨_, rfl⟩
      · exact Or.inl ⟨_, rfl⟩
    · exact Or.inl ⟨_, rfl⟩

theorem single_success_structure (O : Oracles) (p : Str)
    (hsucc : (generate_single_image O p).1.success = true) :
    ∃ u s3, Event.uploadCall u ∈ (generate_single_image O p).2 ∧
      O.s3Upload u = Except.ok s3 ∧ s3.success = true ∧
      (generate_single_image O p).1.url = s3.publicUrl := by
  rcases single_shape O p with ⟨e, heq⟩ | ⟨u, e, heq⟩ |
    ⟨u, s3, t, hs, hs3, heq⟩ | ⟨u, e, heq⟩
  · rw [heq] at hsucc; simp [failRes] at hsucc
  · rw [heq] at hsucc; simp [failRes] at hsucc
  · exact ⟨u, s3, by rw [heq]; simp, hs, hs3, by rw [heq]⟩
  · rw [heq] at hsucc; simp [failRes] at hsucc

theorem single_no_safety_event (O : Oracles) (p : Str) :
    ∀ e ∈ (generate_single_image O p).2, ∀ u, e ≠ Event.safetyCall u := by
  intro ev hev u
  rcases single_shape O p with ⟨e, heq⟩ | ⟨v, e, heq⟩ |
    ⟨v, s3, t, _, _, heq⟩ | ⟨v, e, heq⟩ <;> rw [heq] at hev <;> simp at hev
  · subst hev; intro hc; cases hc
  · rcases hev with hev | hev <;> subst hev <;> intro hc <;> cases hc
  · rcases hev with hev | hev | hev <;> subst hev <;> intro hc <;> cases hc
  · rcases hev with hev | hev | hev <;> subst hev <;> intro hc <;> cases hc

theorem batch_success_upload (O : Oracles) (ps : List Str) :
    ∀ r ∈ (generate_images_batch O ps).1, r.success = true →
      ∃ v, Event.uploadCall v ∈ (generate_images_batch O ps).2 := by
  intro r hr hsucc
  unfold generate_images_batch at hr ⊢
  simp only [processGatherResults, List.map_map, List.mem_map] at hr
  obtain ⟨p, hp, hr⟩ := hr
  have hr' : (generate_single_image O p).1 = r := by simpa using hr
  obtain ⟨u, s3, hu, _, _, _⟩ :=
    single_success_structure O p (by rw [hr']; exact hsucc)
  refine ⟨u, ?_⟩
  simp only [List.map_map, List.mem_flatten, List.mem_map]
  exact ⟨(generate_single_image O p).2, ⟨p, hp, rfl⟩, hu⟩

theorem batch_no_safety (O : Oracles) (ps : List Str) :
    ∀ e ∈ (generate_images_batch O ps).2, ∀ u, e ≠ Event.safetyCall u := by
  intro e he u
  unfold generate_images_batch at he
  simp only [List.map_map, List.mem_flatten, List.mem_map] at he
  obtain ⟨tr, ⟨p, hp, htr⟩, he⟩ := he
  subst htr
  exact single_no_safety_event O p e (by simpa using he) u

theorem checkSafety_event (O : Oracles) :
    ∀ (rs : List ImageResult) (u : Str), Event.safetyCall u ∈ (checkSafety O rs).2 →
      ∃ r ∈ rs, r.success = true ∧ r.url = some u ∧ u ≠ [] := by
  intro rs
  induction rs with
  | nil => intro u h; simp [checkSafety] at h
  | cons r rest ih =>
    intro u h
    by_cases hr : r.success = true
    · rcases hu : r.url with _ | u0
      · simp only [checkSafety, if_pos hr, hu] at h
        obtain ⟨r2, hr2, hp⟩ := ih u h
        exact ⟨r2, List.mem_cons_of_mem _ hr2, hp⟩
      · by_cases hne : u0 = []
        · simp only [checkSafety, if_pos hr, hu, if_neg (not_not_intro hne)] at h
          obtain ⟨r2, hr2, hp⟩ := ih u h
          exact ⟨r2, List.mem_cons_of_mem _ hr2, hp⟩
        · simp only [checkSafety, if_pos hr, hu, if_pos hne] at h
          rcases List.mem_cons.mp h with he | he
          · injection he with he
            exact ⟨r, by simp, hr, by rw [hu, he], he ▸ hne⟩
          · obtain ⟨r2, hr2, hp⟩ := ih u he
            exact ⟨r2, List.mem_cons_of_mem _ hr2, hp⟩
    · simp only [checkSafety, if_neg hr] at h
      obtain ⟨r2, hr2, hp⟩ := ih u h
      exact ⟨r2, List.mem_cons_of_mem _ hr2, hp⟩

theorem events_before_split :
    ∀ (A B l1 l2 : List Event) (e : Event),
      A ++ B = l1 ++ e :: l2 → e ∉ A →
      ∃ B1 B2, B = B1 ++ e :: B2 ∧ l1 = A ++ B1 := by
  intro A
  induction A with
  | nil =>
    intro B l1 l2 e h _
    exact ⟨l1, l2, by simpa using h, by simp⟩
  | cons a A' ih =>
    intro B l1 l2 e h hne
    cases l1 with
    | nil =>
      simp only [List.cons_append, List.nil_append] at h
      have : a = e := (List.cons.injEq _ _ _ _ ▸ h).1
      exact absurd (this ▸ List.mem_cons_self a A') hne
    | cons x l1' =>
      simp only [List.cons_append] at h
      have h1 : a = x := (List.cons.injEq _ _ _ _ ▸ h).1
      have h2 : A' ++ B = l1' ++ e :: l2 := (List.cons.injEq _ _ _ _ ▸ h).2
      obtain ⟨B1, B2, hB, hl⟩ := ih B l1' l2 e h2
        (fun hm => hne (List.mem_cons_of_mem _ hm))
      exact ⟨B1, B2, hB, by rw [← h1, hl]; rfl⟩

theorem checkSafety_unsafe_conversion (O : Oracles) :
    ∀ (rs : List ImageResult) (i : Nat) (r : ImageResult) (u : Str),
      rs[i]? = some r → r.success = true → r.url = some u → u ≠ [] →
      (O.safety u).isSafe = false →
      (checkSafety O rs).1[i]? =
        some (failRes (("Image blocked by safety check: ".data) ++
          (O.safety u).errMsg)) := by
  intro rs
  induction rs with
  | nil => intro i r u h; simp at h
  | cons r0 rest ih =>
    intro i r u hget hsucc hurl hne hunsafe
    cases i with
    | zero =>
      simp only [List.getElem?_cons_zero] at hget
      injection hget with hget
      subst hget
      simp only [checkSafety, if_pos hsucc, hurl, if_pos hne, hunsafe]
      simp
    | succ j =>
      simp only [List.getElem?_cons_succ] at hget
      have htail := ih j r u hget hsucc hurl hne hunsafe
      by_cases hr : r0.success = true
      · rcases hu : r0.url with _ | u0
        · simp only [checkSafety, if_pos hr, hu, List.getElem?_cons_succ]
          exact htail
        · by_cases hne0 : u0 = []
          · simp only [checkSafety, if_pos hr, hu, if_neg (not_not_intro hne0),
              List.getElem?_cons_succ]
            exact htail
          · simp only [checkSafety, if_pos hr, hu, if_pos hne0,
              List.getElem?_cons_succ]
            exact htail
      · simp only [checkSafety, if_neg hr, List.getElem?_cons_succ]
        exact htail

theorem pipelineMain_trace (O : Oracles) (article : Str) (count : Nat)
    (style : Str) (prompts0 : List Str) :
    (pipelineMain O article count style prompts0).2 =
      .extractCall :: ((generate_images_batch O ((prompts0.take count).map
          fun p => p ++ styleModifier style)).2 ++
        (checkSafety O (generate_images_batch O ((prompts0.take count).map
          fun p => p ++ styleModifier style)).1).2) := rfl

/-- C3 corrected.  In the pipeline's call order, every safety-classifier call
happens only after a durable-storage upload has already been performed (the
per-image order is generate → upload to S3 → delete temporary → classify);
each successful single-image result records an upload whose S3 result supplies
the public URL that downstream code references (never the HuggingFace URL);
and an unsafe verdict still converts that prompt's result into a failure
record carrying the classifier's explanation. -/
theorem c3_amended (O : Oracles) (article : Str) (n : Int) (style : Str) :
    (∀ l1 l2 u,
      (generate_and_embed_images_internal O article n style).2 =
        l1 ++ .safetyCall u :: l2 →
      ∃ v, Event.uploadCall v ∈ l1) ∧
    (∀ p, (generate_single_image O p).1.success = true →
      ∃ u s3, Event.uploadCall u ∈ (generate_single_image O p).2 ∧
        O.s3Upload u = Except.ok s3 ∧ s3.success = true ∧
        (generate_single_image O p).1.url = s3.publicUrl) ∧
    (∀ (rs : List ImageResult) (i : Nat) (r : ImageResult) (u : Str),
      rs[i]? = some r → r.success = true → r.url = some u →
      u ≠ [] → (O.safety u).isSafe = false →
      (checkSafety O rs).1[i]? =
        some (failRes (("Image blocked by safety check: ".data) ++
          (O.safety u).errMsg))) := by
  refine ⟨?_, single_success_structure O, checkSafety_unsafe_conversion O⟩
  intro l1 l2 u h
  unfold generate_and_embed_images_internal at h
  by_cases hn : n ≤ 0
  · rw [if_pos hn] at h
    simp at h
  · rw [if_neg hn] at h
    dsimp only at h
    by_cases hp : generate_image_prompts_from_article O.ollama (pipelineCount n) = []
    · rw [if_pos hp] at h
      dsimp only at h
      cases l1 with
      | nil => simp at h
      | cons x l1' => simp at h
    · rw [if_neg hp] at h
      rw [pipelineMain_trace] at h
      have h' : (Event.extractCall :: (generate_images_batch O
          (((generate_image_prompts_from_article O.ollama
            (pipelineCount n)).take (pipelineCount n)).map
            fun p => p ++ styleModifier style)).2) ++
          (checkSafety O (generate_images_batch O
            (((generate_image_prompts_from_article O.ollama
              (pipelineCount n)).take (pipelineCount n)).map
              fun p => p ++ styleModifier style)).1).2 =
          l1 ++ .safetyCall u :: l2 := by
        simpa using h
      obtain ⟨B1, B2, hB, hl⟩ := events_before_split _ _ l1 l2 (.safetyCall u) h'
        (by
          intro hmem
          rcases List.mem_cons.mp hmem with hc | hc
          · cases hc
          · exact batch_no_safety O _ _ hc u rfl)
      have hsafe : Event.safetyCall u ∈ (checkSafety O (generate_images_batch O
          (((generate_image_prompts_from_article O.ollama
            (pipelineCount n)).take (pipelineCount n)).map
            fun p => p ++ styleModifier style)).1).2 := by
        rw [hB]
        simp
      obtain ⟨r, hr, hsucc, _, _⟩ := checkSafety_event O _ u hsafe
      obtain ⟨v, hv⟩ := batch_success_upload O _ r hr hsucc
      refine ⟨v, ?_⟩
      rw [hl]
      exact List.mem_append_left _ (List.mem_cons_of_mem _ hv)

/-- Witness for C3 (amended): the unsafe-conversion conjunct applied to a
concrete post-upload result. -/
theorem c3_witness :
    (checkSafety oracleUnsafe
        [{ success := true
           url := some ("s3url".data)
           error := none
           generationTime := some 3 }]).1[0]? =
      some (failRes (("Image blocked by safety check: ".data) ++
        (oracleUnsafe.safety ("s3url".data)).errMsg)) :=
  (c3_amended oracleUnsafe ("My article.".data) 1 ("auto".data)).2.2
    [{ success := true
       url := some ("s3url".data)
       error := none
       generationTime := some 3 }]
    0 _ ("s3url".data) rfl rfl rfl (by decide) (by decide)

theorem findParen_length : ∀ (l rem : Str), findParen l = some rem →
    rem.length < l.length := by
  intro l
  induction l with
  | nil => intro rem h; simp [findParen] at h
  | cons c rest ih =>
    intro rem h
    unfold findParen at h
    by_cases hp : c = ')'
    · rw [if_pos hp] at h
      injection h with h
      subst h
      simp
    · rw [if_neg hp] at h
      by_cases hn : c = '\n'
      · rw [if_pos hn] at h; exact absurd h (by simp)
      · rw [if_neg hn] at h
        exact Nat.lt_trans (ih rem h) (by simp)

theorem findClose_length : ∀ (l rem : Str), findClose l = some rem →
    rem.length < l.length := by
  intro l
  induction l with
  | nil => intro rem h; simp [findClose] at h
  | cons c rest ih =>
    intro rem h
    unfold findClose at h
    by_cases hn : c = '\n'
    · rw [if_pos hn] at h; exact absurd h (by simp)
    · rw [if_neg hn] at h
      by_cases hb : c = ']'
      · rw [if_pos hb] at h
        cases rest with
        | nil => exact absurd h (by simp)
        | cons d r2 =>
          dsimp only at h
          by_cases hd : d = '('
          · rw [if_pos hd] at h
            cases hfp : findParen r2 with
            | some rem2 =>
              rw [hfp] at h
              injection h with h
              subst h
              have := findParen_length r2 rem2 hfp
              simp only [List.length_cons]
              omega
            | none =>
              rw [hfp] at h
              exact Nat.lt_trans (ih rem h) (by simp)
          · rw [if_neg hd] at h
            exact Nat.lt_trans (ih rem h) (by simp)
      · rw [if_neg hb] at h
        exact Nat.lt_trans (ih rem h) (by simp)

theorem mdMatch_length : ∀ (l rem : Str), mdMatch l = some rem →
    rem.length < l.length := by
  intro l rem h
  match l with
  | [] => simp [mdMatch] at h
  | [c] => simp [mdMatch] at h
  | c1 :: c2 :: rest =>
    unfold mdMatch at h
    dsimp only at h
    by_cases hc : (c1 = '!' && c2 = '[') = true
    · rw [if_pos hc] at h
      have := findClose_length rest rem h
      simp only [List.length_cons]
      omega
    · rw [if_neg hc] at h
      exact absurd h (by simp)

theorem mdCountAux_congr : ∀ (n f1 f2 : Nat) (l : Str), l.length ≤ n →
    l.length ≤ f1 → l.length ≤ f2 → mdCountAux f1 l = mdCountAux f2 l := by
  intro n
  induction n with
  | zero =>
    intro f1 f2 l hn _ _
    have hl0 : l = [] := List.length_eq_zero.mp (Nat.le_zero.mp hn)
    subst hl0
    cases f1 <;> cases f2 <;> rfl
  | succ n ih =>
    intro f1 f2 l hn h1 h2
    cases l with
    | nil => cases f1 <;> cases f2 <;> rfl
    | cons c rest =>
      simp only [List.length_cons] at hn h1 h2
      obtain ⟨f1', rfl⟩ : ∃ f1', f1 = f1' + 1 := ⟨f1 - 1, by omega⟩
      obtain ⟨f2', rfl⟩ : ∃ f2', f2 = f2' + 1 := ⟨f2 - 1, by omega⟩
      simp only [mdCountAux]
      cases hm : mdMatch (c :: rest) with
      | some rem =>
        dsimp only
        have hlen := mdMatch_length _ _ hm
        simp only [List.length_cons] at hlen
        rw [ih f1' f2' rem (by omega) (by omega) (by omega)]
      | none =>
        dsimp only
        exact ih f1' f2' rest (by omega) (by omega) (by omega)

theorem mdCountAux_eq_countMd (f : Nat) (l : Str) (h : l.length ≤ f) :
    mdCountAux f l = countMd l :=
  mdCountAux_congr (max f l.length) f l.length l (le_max_right _ _)
    h le_rfl

theorem findParen_append_nl : ∀ (zs ys : Str),
    findParen (zs ++ '\n' :: ys) = (findParen zs).map (· ++ '\n' :: ys) := by
  intro zs ys
  induction zs with
  | nil => simp [findParen]
  | cons c zs' ih =>
    simp only [List.cons_append]
    unfold findParen
    by_cases hp : c = ')'
    · rw [if_pos hp, if_pos hp]; rfl
    · rw [if_neg hp, if_neg hp]
      by_cases hn : c = '\n'
      · rw [if_pos hn, if_pos hn]; rfl
      · rw [if_neg hn, if_neg hn]
        exact ih

theorem findClose_append_nl : ∀ (zs ys : Str),
    findClose (zs ++ '\n' :: ys) = (findClose zs).map (· ++ '\n' :: ys) := by
  intro zs ys
  induction zs with
  | nil =>
    simp [findClose]
  | cons c zs' ih =>
    simp only [List.cons_append]
    unfold findClose
    by_cases hn : c = '\n'
    · rw [if_pos hn, if_pos hn]; rfl
    · rw [if_neg hn, if_neg hn]
      by_cases hb : c = ']'
      · rw [if_pos hb, if_pos hb]
        cases zs' with
        | nil =>
          simp only [List.nil_append]
          rw [if_neg (by decide : ¬ ('\n' : Char) = '(')]
          have h0 : findClose ('\n' :: ys) = none := by
            unfold findClose
            rw [if_pos rfl]
          rw [h0]
          rfl
        | cons d zs'' =>
          simp only [List.cons_append]
          by_cases hd : d = '('
          · rw [if_pos hd, if_pos hd]
            rw [findParen_append_nl]
            cases hfp : findParen zs'' with
            | some r => simp [hfp]
            | none =>
              simp only [hfp, Option.map_none]
              simpa only [List.cons_append] using ih
          · rw [if_neg hd, if_neg hd]
            simpa only [List.cons_append] using ih
      · rw [if_neg hb, if_neg hb]
        exact ih

theorem mdMatch_append_nl : ∀ (zs ys : Str),
    mdMatch (zs ++ '\n' :: ys) = (mdMatch zs).map (· ++ '\n' :: ys) := by
  intro zs ys
  match zs with
  | [] =>
    cases ys with
    | nil => simp [mdMatch]
    | cons y ys' =>
      simp [mdMatch, (by decide : ¬ ('\n' : Char) = '!')]
  | [c] =>
    simp only [List.cons_append, List.nil_append, mdMatch]
    rw [if_neg]
    · rfl
    · simp [(by decide : ¬ ('\n' : Char) = '[')]
  | c1 :: c2 :: rest =>
    simp only [List.cons_append, mdMatch]
    by_cases hc : (c1 = '!' && c2 = '[') = true
    · rw [if_pos hc, if_pos hc]
      exact findClose_append_nl rest ys
    · rw [if_neg hc, if_neg hc]; rfl

theorem countMd_nil : countMd [] = 0 := rfl

theorem mdMatch_cons_nl (ys : Str) : mdMatch ('\n' :: ys) = none := by
  cases ys with
  | nil => rfl
  | cons y ys' => rfl

theorem countMd_cons_nl (ys : Str) : countMd ('\n' :: ys) = countMd ys := by
  unfold countMd
  simp only [List.length_cons, mdCountAux, mdMatch_cons_nl]

theorem countMd_append_nl : ∀ (n : Nat) (xs ys : Str), xs.length ≤ n →
    countMd (xs ++ '\n' :: ys) = countMd xs + countMd ys := by
  intro n
  induction n with
  | zero =>
    intro xs ys hn
    have hx : xs = [] := List.length_eq_zero.mp (Nat.le_zero.mp hn)
    subst hx
    simp [countMd_cons_nl, countMd_nil]
  | succ n ih =>
    intro xs ys hn
    cases xs with
    | nil => simp [countMd_cons_nl, countMd_nil]
    | cons c xs' =>
      simp only [List.length_cons] at hn
      simp only [List.cons_append]
      unfold countMd
      simp only [List.length_cons, List.length_append, mdCountAux]
      rw [show (c :: (xs' ++ '\n' :: ys)) = ((c :: xs') ++ '\n' :: ys) from rfl]
      rw [mdMatch_append_nl (c :: xs') ys]
      cases hm : mdMatch (c :: xs') with
      | some rem =>
        simp only [Option.map_some']
        have hlen := mdMatch_length _ _ hm
        simp only [List.length_cons] at hlen
        have e1 : mdCountAux (xs'.length + (ys.length + 1)) (rem ++ '\n' :: ys) =
            countMd (rem ++ '\n' :: ys) := by
          apply mdCountAux_eq_countMd
          simp only [List.length_append, List.length_cons]
          omega
        have e2 : mdCountAux xs'.length rem = countMd rem := by
          apply mdCountAux_eq_countMd
          omega
        rw [e1, e2, ih rem ys (by omega)]
        have e3 : mdCountAux ys.length ys = countMd ys := rfl
        rw [e3]
        omega
      | none =>
        simp only [Option.map_none']
        have e1 : mdCountAux (xs'.length + (ys.length + 1)) (xs' ++ '\n' :: ys) =
            countMd (xs' ++ '\n' :: ys) := by
          apply mdCountAux_eq_countMd
          simp only [List.length_append, List.length_cons]
          omega
        have e2 : mdCountAux xs'.length xs' = countMd xs' := mdCountAux_eq_countMd _ _ le_rfl
        have e3 : mdCountAux ys.length ys = countMd ys := rfl
        rw [e1, e2, e3, ih xs' ys (by omega)]

theorem countMd_append_newline (xs ys : Str) :
    countMd (xs ++ '\n' :: ys) = countMd xs + countMd ys :=
  countMd_append_nl xs.length xs ys le_rfl

theorem countMd_joinWith_nl : ∀ (ls : List Str),
    countMd (joinWith ['\n'] ls) = (ls.map countMd).sum := by
  intro ls
  induction ls with
  | nil => rfl
  | cons x xs ih =>
    cases xs with
    | nil => simp [joinWith]
    | cons y xs' =>
      have hjw : joinWith ['\n'] (x :: y :: xs') =
          x ++ '\n' :: joinWith ['\n'] (y :: xs') := by
        show x ++ ['\n'] ++ joinWith ['\n'] (y :: xs') = _
        simp
      rw [hjw, countMd_append_newline, ih]
      simp

theorem countMd_joinWith_nl2 : ∀ (ls : List Str),
    countMd (joinWith ('\n' :: '\n' :: []) ls) = (ls.map countMd).sum := by
  intro ls
  induction ls with
  | nil => rfl
  | cons x xs ih =>
    cases xs with
    | nil => simp [joinWith]
    | cons y xs' =>
      have hjw : joinWith ('\n' :: '\n' :: []) (x :: y :: xs') =
          x ++ '\n' :: ('\n' :: joinWith ('\n' :: '\n' :: []) (y :: xs')) := by
        show x ++ ['\n', '\n'] ++ joinWith ('\n' :: '\n' :: []) (y :: xs') = _
        simp
      rw [hjw, countMd_append_newline, countMd_cons_nl, ih]
      simp

theorem splitNl_ne_nil : ∀ (l : Str), splitNl l ≠ [] := by
  intro l
  cases l with
  | nil => simp [splitNl]
  | cons c rest =>
    unfold splitNl
    cases h : splitNl rest with
    | nil => simp
    | cons x t =>
      by_cases hc : c = '\n' <;> simp [hc]

theorem joinWith_splitNl : ∀ (l : Str), joinWith ['\n'] (splitNl l) = l := by
  intro l
  induction l with
  | nil => rfl
  | cons c rest ih =>
    unfold splitNl
    cases h : splitNl rest with
    | nil => exact absurd h (splitNl_ne_nil rest)
    | cons x t =>
      rw [h] at ih
      dsimp only
      by_cases hc : c = '\n'
      · rw [if_pos hc]
        subst hc
        have hjj : joinWith ['\n'] ([] :: x :: t) = '\n' :: joinWith ['\n'] (x :: t) := by
          show [] ++ ['\n'] ++ joinWith ['\n'] (x :: t) = _
          simp
        rw [hjj, ih]
      · rw [if_neg hc]
        cases t with
        | nil =>
          simp only [joinWith] at ih ⊢
          rw [ih]
        | cons z t' =>
          have h1 : joinWith ['\n'] ((c :: x) :: z :: t') =
              (c :: x) ++ '\n' :: joinWith ['\n'] (z :: t') := by
            show (c :: x) ++ ['\n'] ++ joinWith ['\n'] (z :: t') = _
            simp
          have h2 : joinWith ['\n'] (x :: z :: t') =
              x ++ '\n' :: joinWith ['\n'] (z :: t') := by
            show x ++ ['\n'] ++ joinWith ['\n'] (z :: t') = _
            simp
          rw [h2] at ih
          rw [h1]
          simp only [List.cons_append]
          rw [ih]

theorem findParen_isSome : ∀ (v t : Str), '\n' ∉ v →
    (findParen (v ++ ')' :: t)).isSome := by
  intro v
  induction v with
  | nil =>
    intro t _
    simp [findParen]
  | cons c v' ih =>
    intro t hnn
    have hc : c ≠ '\n' := fun h => hnn (h ▸ List.mem_cons_self c v')
    simp only [List.cons_append]
    unfold findParen
    by_cases hp : c = ')'
    · rw [if_pos hp]; rfl
    · rw [if_neg hp, if_neg hc]
      exact ih t (fun h => hnn (List.mem_cons_of_mem _ h))

theorem findClose_isSome : ∀ (x u t : Str), '\n' ∉ x → '\n' ∉ u →
    (findClose (x ++ ']' :: '(' :: (u ++ ')' :: t))).isSome := by
  intro x
  induction x with
  | nil =>
    intro u t _ hu
    simp only [List.nil_append]
    unfold findClose
    rw [if_neg (by decide : ¬ (']' : Char) = '\n'), if_pos rfl]
    dsimp only
    rw [if_pos rfl]
    have := findParen_isSome u t hu
    cases hfp : findParen (u ++ ')' :: t) with
    | some r => rfl
    | none => rw [hfp] at this; exact absurd this (by simp)
  | cons c x' ih =>
    intro u t hx hu
    have hc : c ≠ '\n' := fun h => hx (h ▸ List.mem_cons_self c x')
    have hx' : '\n' ∉ x' := fun h => hx (List.mem_cons_of_mem _ h)
    simp only [List.cons_append]
    unfold findClose
    rw [if_neg hc]
    by_cases hb : c = ']'
    · rw [if_pos hb]
      cases x' with
      | nil =>
        simp only [List.nil_append]
        rw [if_neg (by decide : ¬ (']' : Char) = '(')]
        exact ih u t hx' hu
      | cons e x'' =>
        simp only [List.cons_append]
        by_cases he : e = '('
        · rw [if_pos he]
          have hfp : (findParen ((x'' ++ ']' :: '(' :: u) ++ ')' :: t)).isSome := by
            apply findParen_isSome
            intro hmem
            rcases List.mem_append.mp hmem with hmem | hmem
            · exact hx' (List.mem_cons_of_mem _ hmem)
            · rcases List.mem_cons.mp hmem with hmem | hmem
              · exact absurd hmem.symm (by decide)
              · rcases List.mem_cons.mp hmem with hmem | hmem
                · exact absurd hmem.symm (by decide)
                · exact hu hmem
          have hre : x'' ++ ']' :: '(' :: (u ++ ')' :: t) =
              (x'' ++ ']' :: '(' :: u) ++ ')' :: t := by
            simp
          rw [hre]
          cases hfp2 : findParen ((x'' ++ ']' :: '(' :: u) ++ ')' :: t) with
          | some r => rfl
          | none => rw [hfp2] at hfp; exact absurd hfp (by simp)
        · rw [if_neg he]
          exact ih u t hx' hu
    · rw [if_neg hb]
      exact ih u t hx' hu

theorem countMd_head_pos (alt url : Str) (halt : '\n' ∉ alt) (hurl : '\n' ∉ url) :
    1 ≤ countMd ('!' :: '[' :: (alt ++ ']' :: '(' :: (url ++ [')']))) := by
  unfold countMd
  simp only [List.length_cons, mdCountAux]
  have hm : mdMatch ('!' :: '[' :: (alt ++ ']' :: '(' :: (url ++ [')']))) =
      findClose (alt ++ ']' :: '(' :: (url ++ [')'])) := by
    unfold mdMatch
    dsimp only
    rw [if_pos (by decide)]
  rw [hm]
  have := findClose_isSome alt url [] halt hurl
  cases hfc : findClose (alt ++ ']' :: '(' :: (url ++ ')' :: [])) with
  | some r => simp [hfc]
  | none => rw [hfc] at this; exact absurd this (by simp)

theorem dropWhile_ws_nl (l : Str) :
    List.dropWhile isPyWs ('\n' :: l) = List.dropWhile isPyWs l := by
  rw [List.dropWhile_cons, if_pos (show isPyWs '\n' = true from rfl)]

theorem dropWhile_ws_bang (l : Str) :
    List.dropWhile isPyWs ('!' :: l) = '!' :: l := by
  rw [List.dropWhile_cons, if_neg (show ¬ isPyWs '!' = true by decide)]

theorem dropWhile_ws_paren (l : Str) :
    List.dropWhile isPyWs (')' :: l) = ')' :: l := by
  rw [List.dropWhile_cons, if_neg (show ¬ isPyWs ')' = true by decide)]

theorem pyStrip_mkImageMarkdown (alt url : Str) :
    pyStrip (mkImageMarkdown alt url) =
      '!' :: '[' :: (alt ++ ']' :: '(' :: (url ++ [')'])) := by
  have hform : mkImageMarkdown alt url =
      '\n' :: '\n' :: ('!' :: '[' ::
        (alt ++ ']' :: '(' :: (url ++ ')' :: '\n' :: '\n' :: []))) := by
    unfold mkImageMarkdown
    have h1 : ("\n\n![".data) = ['\n', '\n', '!', '['] := rfl
    have h2 : ("](".data) = [']', '('] := rfl
    have h3 : (")\n\n".data) = [')', '\n', '\n'] := rfl
    rw [h1, h2, h3]
    simp
  rw [hform]
  unfold pyStrip
  rw [dropWhile_ws_nl, dropWhile_ws_nl, dropWhile_ws_bang]
  have hA : ('!' :: '[' :: (alt ++ ']' :: '(' :: (url ++ ')' :: '\n' :: '\n' :: []))) =
      ('!' :: '[' :: (alt ++ ']' :: '(' :: url)) ++ (')' :: '\n' :: '\n' :: []) := by
    simp
  rw [hA, List.reverse_append]
  have hrev : ((')' :: '\n' :: '\n' :: []) : Str).reverse = ['\n', '\n', ')'] := rfl
  rw [hrev]
  simp only [List.cons_append, List.nil_append]
  rw [dropWhile_ws_nl, dropWhile_ws_nl, dropWhile_ws_paren]
  rw [List.reverse_cons, List.reverse_reverse]
  simp

theorem pySplitWsAux_no_ws : ∀ (l cur : Str), (∀ c ∈ cur, isPyWs c = false) →
    ∀ w ∈ pySplitWsAux l cur, ∀ c ∈ w, isPyWs c = false := by
  intro l
  induction l with
  | nil =>
    intro cur hcur w hw c hc
    unfold pySplitWsAux at hw
    by_cases hcc : cur = []
    · rw [if_pos hcc] at hw; simp at hw
    · rw [if_neg hcc] at hw
      simp at hw
      subst hw
      exact hcur c (by simpa using hc)
  | cons a rest ih =>
    intro cur hcur w hw c hc
    unfold pySplitWsAux at hw
    by_cases ha : isPyWs a = true
    · rw [if_pos ha] at hw
      by_cases hcc : cur = []
      · rw [if_pos hcc] at hw
        exact ih [] (by simp) w hw c hc
      · rw [if_neg hcc] at hw
        rcases List.mem_cons.mp hw with hw | hw
        · subst hw; exact hcur c (by simpa using hc)
        · exact ih [] (by simp) w hw c hc
    · rw [if_neg ha] at hw
      refine ih (a :: cur) ?_ w hw c hc
      intro c2 hc2
      rcases List.mem_cons.mp hc2 with h | h
      · subst h; simpa using ha
      · exact hcur c2 h

theorem mem_joinWith : ∀ (sep : Str) (ls : List Str) (c : Char),
    c ∈ joinWith sep ls → c ∈ sep ∨ ∃ w ∈ ls, c ∈ w := by
  intro sep ls
  induction ls with
  | nil => intro c h; simp [joinWith] at h
  | cons x xs ih =>
    intro c h
    cases xs with
    | nil => exact Or.inr ⟨x, by simp, by simpa [joinWith] using h⟩
    | cons y xs' =>
      have hj : joinWith sep (x :: y :: xs') =
          x ++ sep ++ joinWith sep (y :: xs') := rfl
      rw [hj] at h
      rcases List.mem_append.mp h with h | h
      · rcases List.mem_append.mp h with h | h
        · exact Or.inr ⟨x, by simp, h⟩
        · exact Or.inl h
      · rcases ih c h with h | ⟨w, hw, hc⟩
        · exact Or.inl h
        · exact Or.inr ⟨w, List.mem_cons_of_mem _ hw, hc⟩

theorem alt_text_no_newline (p : Str) : '\n' ∉ generate_alt_text p := by
  unfold generate_alt_text
  dsimp only
  intro hmem
  split at hmem
  · exact absurd hmem (by decide)
  · rcases mem_joinWith [' '] _ '\n' hmem with h | ⟨w, hw, hc⟩
    · simp at h
    · have hmemw : w ∈ pySplitWs p :=
        List.mem_of_mem_take (List.mem_of_mem_filter hw)
      have := pySplitWsAux_no_ws p [] (by simp) w hmemw '\n' hc
      exact absurd this (by decide)

theorem mem_successfulImages (prompts : List Str) (results : List ImageResult)
    (pr : Str × ImageResult) (u : Str) (hmem : pr ∈ prompts.zip results)
    (hsucc : pr.2.success = true) (hurl : pr.2.url = some u) (hne : u ≠ [])
    (hstrip : pyStrip u ≠ []) :
    mkImageMarkdown (generate_alt_text pr.1) u ∈ successfulImages prompts results := by
  apply List.mem_filterMap.mpr
  refine ⟨pr, hmem, ?_⟩
  simp [hsucc, hurl, hne, hstrip]

/-- C5 corrected.  Whenever some zipped `(prompt, result)` pair is a success
whose URL is non-empty *after trimming whitespace* and contains no newline,
the embedder's output contains at least one markdown image marker: either the
splice already yields a positive marker count (the embedder returns it only
in that case), or the zero-marker fallback appends every successful image at
the end of the document, which makes the count positive.  (The original
claim's bare "non-empty URL" is not enough: a whitespace-only URL is dropped
by the `len(url.strip()) == 0` check, see the counterexample.)  The model is
a total function, so no exception can escape the embedder. -/
theorem c5_amended (content : Str) (prompts : List Str) (results : List ImageResult)
    (h : ∃ pr ∈ prompts.zip results, pr.2.success = true ∧
      ∃ u, pr.2.url = some u ∧ u ≠ [] ∧ pyStrip u ≠ [] ∧ '\n' ∉ u) :
    1 ≤ countMd (embed_images_at_positions content prompts results) := by
  obtain ⟨pr, hmem, hsucc, u, hurl, hne, hstrip, hnn⟩ := h
  have hblock := mem_successfulImages prompts results pr u hmem hsucc hurl hne hstrip
  have hsine : successfulImages prompts results ≠ [] := by
    intro hnil
    rw [hnil] at hblock
    exact absurd hblock (by simp)
  unfold embed_images_at_positions
  dsimp only
  rw [if_neg hsine]
  by_cases hzero : countMd (joinWith ['\n']
      (insertImages (splitNl (cleanTags content))
        (sortNat ((findPoints (splitNl (cleanTags content))
          (successfulImages prompts results).length).take
          (successfulImages prompts results).length))
        ((successfulImages prompts results).map pyStrip))) = 0
  · rw [if_pos hzero]
    have hassoc : cleanTags content ++ ("\n\n".data) ++
        joinWith ("\n\n".data) ((successfulImages prompts results).map pyStrip) =
        cleanTags content ++ '\n' :: ('\n' ::
          joinWith ('\n' :: '\n' :: []) ((successfulImages prompts results).map pyStrip)) := by
      have h2 : ("\n\n".data) = ['\n', '\n'] := rfl
      rw [h2]
      simp
    rw [hassoc, countMd_append_newline, countMd_cons_nl, countMd_joinWith_nl2]
    have hone : 1 ≤ countMd (pyStrip (mkImageMarkdown (generate_alt_text pr.1) u)) := by
      rw [pyStrip_mkImageMarkdown]
      exact countMd_head_pos _ _ (alt_text_no_newline pr.1) hnn
    have hmem2 : countMd (pyStrip (mkImageMarkdown (generate_alt_text pr.1) u)) ∈
        (((successfulImages prompts results).map pyStrip).map countMd) := by
      exact List.mem_map_of_mem countMd (List.mem_map_of_mem pyStrip hblock)
    have hsum := List.single_le_sum (fun x _ => Nat.zero_le x) _ hmem2
    omega
  · rw [if_neg hzero]
    omega

/-- Witness for C5 (amended) on a concrete success with a clean URL. -/
theorem c5_witness :
    1 ≤ countMd (embed_images_at_positions ("x".data) [("a scenic view".data)]
      [{ success := true
         url := some ("s3url".data)
         error := none
         generationTime := none }]) :=
  c5_amended ("x".data) [("a scenic view".data)]
    [{ success := true
       url := some ("s3url".data)
       error := none
       generationTime := none }]
    ⟨(("a scenic view".data),
      { success := true
        url := some ("s3url".data)
        error := none
        generationTime := none }), by decide, by decide,
      ("s3url".data), by decide, by decide, by decide, by decide⟩

def parenCount (l : Str) : Nat := l.countP (fun c => c = ')')

theorem findParen_parens : ∀ (l rem : Str), findParen l = some rem →
    parenCount rem < parenCount l := by
  intro l
  induction l with
  | nil => intro rem h; simp [findParen] at h
  | cons c rest ih =>
    intro rem h
    unfold findParen at h
    by_cases hp : c = ')'
    · rw [if_pos hp] at h
      injection h with h
      subst h
      simp [parenCount, List.countP_cons, hp]
    · rw [if_neg hp] at h
      by_cases hn : c = '\n'
      · rw [if_pos hn] at h; exact absurd h (by simp)
      · rw [if_neg hn] at h
        have := ih rem h
        have hmono : parenCount rest ≤ parenCount (c :: rest) := by
          simp [parenCount, List.countP_cons]
        omega

theorem findClose_parens : ∀ (l rem : Str), findClose l = some rem →
    parenCount rem < parenCount l := by
  intro l
  induction l with
  | nil => intro rem h; simp [findClose] at h
  | cons c rest ih =>
    intro rem h
    have hmono : parenCount rest ≤ parenCount (c :: rest) := by
      simp [parenCount, List.countP_cons]
    unfold findClose at h
    by_cases hn : c = '\n'
    · rw [if_pos hn] at h; exact absurd h (by simp)
    · rw [if_neg hn] at h
      by_cases hb : c = ']'
      · rw [if_pos hb] at h
        cases rest with
        | nil => exact absurd h (by simp)
        | cons d r2 =>
          dsimp only at h
          have hmono2 : parenCount r2 ≤ parenCount (d :: r2) := by
            simp [parenCount, List.countP_cons]
          by_cases hd : d = '('
          · rw [if_pos hd] at h
            cases hfp : findParen r2 with
            | some rem2 =>
              rw [hfp] at h
              injection h with h
              subst h
              have := findParen_parens r2 rem2 hfp
              simp only [parenCount, List.countP_cons] at *
              omega
            | none =>
              rw [hfp] at h
              have := ih rem h
              omega
          · rw [if_neg hd] at h
            have := ih rem h
            omega
      · rw [if_neg hb] at h
        have := ih rem h
        omega

theorem mdMatch_parens : ∀ (l rem : Str), mdMatch l = some rem →
    parenCount rem < parenCount l := by
  intro l rem h
  match l with
  | [] => simp [mdMatch] at h
  | [c] => simp [mdMatch] at h
  | c1 :: c2 :: rest =>
    unfold mdMatch at h
    dsimp only at h
    by_cases hc : (c1 = '!' && c2 = '[') = true
    · rw [if_pos hc] at h
      have := findClose_parens rest rem h
      simp only [parenCount, List.countP_cons] at *
      omega
    · rw [if_neg hc] at h
      exact absurd h (by simp)

theorem mdCountAux_le_parens : ∀ (f : Nat) (l : Str), mdCountAux f l ≤ parenCount l := by
  intro f
  induction f with
  | zero => intro l; simp [mdCountAux]
  | succ f ih =>
    intro l
    cases l with
    | nil => simp [mdCountAux]
    | cons c rest =>
      simp only [mdCountAux]
      cases hm : mdMatch (c :: rest) with
      | some rem =>
        dsimp only
        have h1 := mdMatch_parens _ _ hm
        have h2 := ih rem
        omega
      | none =>
        dsimp only
        have h1 := ih rest
        have hmono : parenCount rest ≤ parenCount (c :: rest) := by
          simp [parenCount, List.countP_cons]
        omega

theorem countMd_le_parens (l : Str) : countMd l ≤ parenCount l :=
  mdCountAux_le_parens l.length l

theorem parenCount_eq_zero (l : Str) (h : ')' ∉ l) : parenCount l = 0 := by
  simp only [parenCount, List.countP_eq_zero]
  intro a ha
  simp only [decide_eq_true_eq]
  intro hc
  exact h (hc ▸ ha)

theorem countMd_block_one (alt url : Str) (haltn : '\n' ∉ alt) (hurln : '\n' ∉ url)
    (haltp : ')' ∉ alt) (hurlp : ')' ∉ url) :
    countMd ('!' :: '[' :: (alt ++ ']' :: '(' :: (url ++ [')']))) = 1 := by
  have hge := countMd_head_pos alt url haltn hurln
  have hle := countMd_le_parens ('!' :: '[' :: (alt ++ ']' :: '(' :: (url ++ [')'])))
  have hparen : parenCount ('!' :: '[' :: (alt ++ ']' :: '(' :: (url ++ [')']))) = 1 := by
    simp only [parenCount, List.countP_cons, List.countP_append] at *
    have h1 : alt.countP (fun c => c = ')') = 0 := parenCount_eq_zero alt haltp
    have h2 : url.countP (fun c => c = ')') = 0 := parenCount_eq_zero url hurlp
    simp only [parenCount] at h1 h2
    simp [h1, h2]
  omega

theorem pyInsert_perm {α : Type} : ∀ (n : Nat) (x : α) (l : List α),
    (pyInsert n x l).Perm (x :: l) := by
  intro n
  induction n with
  | zero => intro x l; simp [pyInsert]
  | succ n ih =>
    intro x l
    cases l with
    | nil => simp [pyInsert]
    | cons a l' =>
      show (a :: pyInsert n x l').Perm (x :: a :: l')
      exact ((ih x l').cons a).trans (List.Perm.swap x a l')

theorem sum_countMd_pyInsert (n : Nat) (x : Str) (l : List Str) :
    ((pyInsert n x l).map countMd).sum = countMd x + (l.map countMd).sum := by
  have h := (pyInsert_perm n x l).map countMd
  rw [h.sum_eq]
  simp

theorem sum_countMd_foldl : ∀ (pairs : List (Nat × Str)) (lines : List Str),
    ((pairs.foldl (fun ls pb => pyInsert (pb.1 + 1) pb.2 ls) lines).map countMd).sum
      = (pairs.map fun pb => countMd pb.2).sum + (lines.map countMd).sum := by
  intro pairs
  induction pairs with
  | nil => intro lines; simp
  | cons pb rest ih =>
    intro lines
    simp only [List.foldl_cons, List.map_cons, List.sum_cons]
    rw [ih, sum_countMd_pyInsert]
    omega

theorem insertSorted_length (x : Nat) : ∀ (l : List Nat),
    (insertSorted x l).length = l.length + 1 := by
  intro l
  induction l with
  | nil => simp [insertSorted]
  | cons y ys ih =>
    simp only [insertSorted]
    by_cases h : x ≤ y
    · rw [if_pos h]; simp
    · rw [if_neg h]; simp [ih]

theorem sortNat_length : ∀ (l : List Nat), (sortNat l).length = l.length := by
  intro l
  induction l with
  | nil => rfl
  | cons x xs ih => simp [sortNat, insertSorted_length, ih]

theorem sum_map_eq_length {α : Type} (f : α → Nat) : ∀ (l : List α),
    (∀ x ∈ l, f x = 1) → (l.map f).sum = l.length := by
  intro l
  induction l with
  | nil => intro _; rfl
  | cons a as ih =>
    intro h
    simp only [List.map_cons, List.sum_cons, List.length_cons]
    rw [h a (by simp), ih (fun x hx => h x (by simp [hx]))]
    omega

theorem collect_aux_length : ∀ (l : List (Str × ImageResult)) (i : Nat),
    (∀ pr ∈ l, pr.2.success = true →
      ∃ u, pr.2.url = some u ∧ u ≠ [] ∧ pyStrip u ≠ []) →
    (collectMetadataAux i l).length =
      (l.filterMap fun pr =>
        if pr.2.success then
          match pr.2.url with
          | some u =>
            if u ≠ [] && pyStrip u ≠ [] then
              some (mkImageMarkdown (generate_alt_text pr.1) u)
            else none
          | none => none
        else none).length := by
  intro l
  induction l with
  | nil => intro i _; rfl
  | cons a rest ih =>
    intro i h
    obtain ⟨p, r⟩ := a
    have htail := ih (i + 1) (fun pr hpr => h pr (by simp [hpr]))
    by_cases hs : r.success = true
    · obtain ⟨u, hu, hne, hstrip⟩ := h (p, r) (by simp) hs
      have hu2 : r.url = some u := hu
      have hcond : (decide (u ≠ []) && decide (pyStrip u ≠ [])) = true := by
        simp [hne, hstrip]
      rw [List.filterMap_cons]
      rw [if_pos hs, hu2]
      dsimp only
      rw [if_pos hcond]
      dsimp only
      simp only [collectMetadataAux]
      rw [if_pos hs, hu2]
      dsimp only
      rw [if_pos hne]
      simp only [List.length_cons]
      omega
    · rw [List.filterMap_cons]
      dsimp only
      rw [if_neg hs]
      dsimp only
      simp only [collectMetadataAux]
      rw [if_neg hs]
      exact htail

theorem collect_length_eq_si (prompts : List Str) (results : List ImageResult)
    (h : ∀ pr ∈ prompts.zip results, pr.2.success = true →
      ∃ u, pr.2.url = some u ∧ u ≠ [] ∧ pyStrip u ≠ []) :
    (collectMetadata prompts results).length =
      (successfulImages prompts results).length := by
  unfold collectMetadata successfulImages
  exact collect_aux_length (prompts.zip results) 0 h

theorem si_block_count (prompts : List Str) (results : List ImageResult)
    (h2 : ∀ pr ∈ prompts.zip results, pr.2.success = true →
      ∃ u, pr.2.url = some u ∧ u ≠ [] ∧ pyStrip u ≠ [] ∧ '\n' ∉ u ∧ ')' ∉ u)
    (h3 : ∀ pr ∈ prompts.zip results, ')' ∉ generate_alt_text pr.1) :
    ∀ b ∈ successfulImages prompts results, countMd (pyStrip b) = 1 := by
  intro b hb
  obtain ⟨pr, hpr, hf⟩ := List.mem_filterMap.mp hb
  by_cases hs : pr.2.success = true
  · obtain ⟨u, hu, hne, hstrip, hnn, hnp⟩ := h2 pr hpr hs
    have hb2 : b = mkImageMarkdown (generate_alt_text pr.1) u := by
      simp [hs, hu, hne, hstrip] at hf
      exact hf.symm
    rw [hb2, pyStrip_mkImageMarkdown]
    exact countMd_block_one _ _ (alt_text_no_newline _) hnn (h3 pr hpr) hnp
  · simp [hs] at hf

theorem countMd_insertImages (lines : List Str) (pts : List Nat)
    (blocks : List Str) (hlen : blocks.length ≤ pts.length) :
    ((insertImages lines pts blocks).map countMd).sum
      = (blocks.map countMd).sum + (lines.map countMd).sum := by
  unfold insertImages
  rw [sum_countMd_foldl]
  have hzl : blocks.reverse.length ≤ pts.reverse.length := by simp [hlen]
  have hsnd : (pts.reverse.zip blocks.reverse).map Prod.snd = blocks.reverse :=
    List.map_snd_zip _ _ hzl
  have hmap : ((pts.reverse.zip blocks.reverse).map fun pb => countMd pb.2)
      = (blocks.reverse).map countMd := by
    have hcomp : (fun pb : Nat × Str => countMd pb.2) = countMd ∘ Prod.snd := rfl
    rw [hcomp, ← List.map_map, hsnd]
  rw [hmap]
  rw [show ((blocks.reverse).map countMd) = (blocks.map countMd).reverse from
    List.map_reverse _ _]
  rw [List.sum_reverse]

theorem embed_marker_count (content : Str) (prompts : List Str)
    (results : List ImageResult)
    (h1 : countMd (cleanTags content) = 0)
    (h2 : ∀ pr ∈ prompts.zip results, pr.2.success = true →
      ∃ u, pr.2.url = some u ∧ u ≠ [] ∧ pyStrip u ≠ [] ∧ '\n' ∉ u ∧ ')' ∉ u)
    (h3 : ∀ pr ∈ prompts.zip results, ')' ∉ generate_alt_text pr.1)
    (h4 : (successfulImages prompts results).length ≤
      (findPoints (splitNl (cleanTags content))
        (successfulImages prompts results).length).length) :
    countMd (embed_images_at_positions content prompts results) =
      (successfulImages prompts results).length := by
  have hblocks : ∀ x ∈ (successfulImages prompts results).map pyStrip,
      countMd x = 1 := by
    intro x hx
    obtain ⟨b, hb, hbx⟩ := List.mem_map.mp hx
    rw [← hbx]
    exact si_block_count prompts results h2 h3 b hb
  have hk1 : (((successfulImages prompts results).map pyStrip).map countMd).sum
      = (successfulImages prompts results).length := by
    rw [sum_map_eq_length countMd _ hblocks, List.length_map]
  by_cases hnil : successfulImages prompts results = []
  · unfold embed_images_at_positions
    dsimp only
    rw [if_pos hnil, hnil, h1]
    rfl
  · have hlen : (sortNat ((findPoints (splitNl (cleanTags content))
        (successfulImages prompts results).length).take
        (successfulImages prompts results).length)).length
        = (successfulImages prompts results).length := by
      rw [sortNat_length, List.length_take]
      omega
    have hlines : (((splitNl (cleanTags content))).map countMd).sum = 0 := by
      rw [← countMd_joinWith_nl, joinWith_splitNl]
      exact h1
    have hmain : countMd (joinWith ['\n']
        (insertImages (splitNl (cleanTags content))
          (sortNat ((findPoints (splitNl (cleanTags content))
            (successfulImages prompts results).length).take
            (successfulImages prompts results).length))
          ((successfulImages prompts results).map pyStrip)))
        = (successfulImages prompts results).length := by
      rw [countMd_joinWith_nl]
      rw [countMd_insertImages _ _ _ (le_of_eq (by rw [List.length_map, hlen]))]
      rw [hk1, hlines]
      omega
    have hk0 : (successfulImages prompts results).length ≠ 0 := by
      intro h0
      exact hnil (List.length_eq_zero.mp h0)
    unfold embed_images_at_positions
    dsimp only
    rw [if_neg hnil]
    rw [hmain, if_neg hk0]
    exact hmain

/-- The truncated prompt list `prompts = image_prompts[:image_count]` used by
steps 2-5 of `_generate_and_embed_images_internal`. -/
def pipePrompts (O : Oracles) (count : Nat) : List Str :=
  (generate_image_prompts_from_article O.ollama count).take count

/-- The post-safety result list of step 4, in the order of `pipePrompts`. -/
def pipeResults (O : Oracles) (count : Nat) (image_style : Str) : List ImageResult :=
  (checkSafety O (generate_images_batch O ((pipePrompts O count).map
    fun p => p ++ styleModifier image_style)).1).1

/-- Oracle valuation: one good prompt, generation and upload succeed, the
safety classifier passes the image. -/
def oracleSafe : Oracles where
  ollama := .ok (true, ("A football field at sunset scene".data))
  hfGen := fun _ => .ok
    { success := true
      downloadUrl := some ("hf1".data)
      error := none
      generationTime := some 3 }
  s3Upload := fun _ => .ok
    { success := true
      publicUrl := some ("imgs3".data)
      error := none }
  hfDelete := fun _ => .ok true
  safety := fun _ => { isSafe := true, errMsg := [] }

/-- C4 as stated is false: an article that already contains a markdown image
reference reaches the caller with one marker in the content but an empty
metadata list (here via the `image_count <= 0` early return, which copies the
article verbatim); the pipeline also never enforces the equality - the
`images_in_final` count of lines 318-336 only selects a warning message. -/
theorem c4_counterexample :
    (generate_and_embed_images_internal oracleUnsafe (("![a](b)").data) 0
      (("auto").data)).1.images.length = 0 ∧
    countMd (generate_and_embed_images_internal oracleUnsafe (("![a](b)").data) 0
      (("auto").data)).1.content = 1 := by decide

/-- C4 corrected.  The metadata-count/marker-count equality holds only under
side conditions the code does not check: the cleaned article must itself
contain no markdown image reference, every post-safety success must carry a
URL that is non-empty after stripping and free of newlines and closing
parentheses, the generated alt texts must be free of closing parentheses, and
the placement strategies must yield at least as many insertion points as
successful images.  Under those conditions every metadata record corresponds
to exactly one embedded marker, so the returned `images` list's length equals
the marker count of the returned content.  The code never verifies the
equality: `images_in_final` is only compared against zero to pick a warning
message. -/
theorem c4_amended (O : Oracles) (article : Str) (n : Int) (image_style : Str)
    (hn : 0 < n)
    (hp0 : generate_image_prompts_from_article O.ollama (pipelineCount n) ≠ [])
    (h1 : countMd (cleanTags article) = 0)
    (h2 : ∀ pr ∈ (pipePrompts O (pipelineCount n)).zip
        (pipeResults O (pipelineCount n) image_style),
      pr.2.success = true → ∃ u, pr.2.url = some u ∧ u ≠ [] ∧ pyStrip u ≠ [] ∧
        '\n' ∉ u ∧ ')' ∉ u)
    (h3 : ∀ pr ∈ (pipePrompts O (pipelineCount n)).zip
        (pipeResults O (pipelineCount n) image_style),
      ')' ∉ generate_alt_text pr.1)
    (h4 : (successfulImages (pipePrompts O (pipelineCount n))
        (pipeResults O (pipelineCount n) image_style)).length ≤
      (findPoints (splitNl (cleanTags article))
        (successfulImages (pipePrompts O (pipelineCount n))
          (pipeResults O (pipelineCount n) image_style)).length).length) :
    (generate_and_embed_images_internal O article n image_style).1.images.length =
      countMd (generate_and_embed_images_internal O article n image_style).1.content := by
  have hres : (generate_and_embed_images_internal O article n image_style).1 =
      (pipelineMain O article (pipelineCount n) image_style
        (generate_image_prompts_from_article O.ollama (pipelineCount n))).1 := by
    unfold generate_and_embed_images_internal
    rw [if_neg (by omega : ¬ n ≤ 0)]
    dsimp only
    rw [if_neg hp0]
  rw [hres]
  have hcontent : (pipelineMain O article (pipelineCount n) image_style
      (generate_image_prompts_from_article O.ollama (pipelineCount n))).1.content =
      embed_images_at_positions article (pipePrompts O (pipelineCount n))
        (pipeResults O (pipelineCount n) image_style) := rfl
  have himages : (pipelineMain O article (pipelineCount n) image_style
      (generate_image_prompts_from_article O.ollama (pipelineCount n))).1.images =
      collectMetadata (pipePrompts O (pipelineCount n))
        (pipeResults O (pipelineCount n) image_style) := rfl
  rw [hcontent, himages]
  rw [collect_length_eq_si _ _ (fun pr hpr hs => by
    obtain ⟨u, ha, hb, hc, _, _⟩ := h2 pr hpr hs
    exact ⟨u, ha, hb, hc⟩)]
  exact (embed_marker_count article _ _ h1 h2 h3 h4).symm

/-- Concrete run discharging the hypotheses of the corrected C4: a safe
oracle produces one successful image, and the returned metadata list length
equals the marker count of the returned content (both are 1). -/
theorem c4_witness :
    (generate_and_embed_images_internal oracleSafe
      (("## Title\nBody text\n\nMore text").data) 1
      (("auto").data)).1.images.length =
      countMd (generate_and_embed_images_internal oracleSafe
        (("## Title\nBody text\n\nMore text").data) 1
        (("auto").data)).1.content :=
  c4_amended oracleSafe (("## Title\nBody text\n\nMore text").data) 1
    (("auto").data)
    (by decide) (by decide) (by decide)
    (by
      intro pr hpr hs
      have hz : (pipePrompts oracleSafe (pipelineCount 1)).zip
          (pipeResults oracleSafe (pipelineCount 1) (("auto").data)) =
          [((("A football field at sunset scene").data),
            { success := true
              url := some (("imgs3").data)
              error := none
              generationTime := some 3 })] := by decide
      rw [hz] at hpr
      have hpr2 := List.mem_singleton.mp hpr
      subst hpr2
      exact ⟨(("imgs3").data), rfl, by decide, by decide, by decide, by decide⟩)
    (by decide) (by decide)
